import Mathlib

/-!
Verification of the WBR (Weekly Business Review) computation engine.

This file gives a shallow embedding of the numeric core of the engine
(`src/wbr.py`, `src/wbr_utility.py`, `src/validator.py`) and proves or
refutes the frozen claims about it.

Conventions of the embedding:
* Pandas cell values (float64 with NaN used both for "null" and for the
  result of invalid operations) are modelled by `PVal`: an exact rational,
  `nan` (covering both null and NaN, which pandas does not distinguish in
  float columns), or a signed infinity.  Arithmetic mirrors IEEE semantics
  on this fragment.
* A data frame is a list of named columns (`Frame`); the `Date` column is
  dropped exactly where the source drops it, and dates are modelled as
  integer day numbers.
* Raising an exception is modelled with `Except`.
-/

namespace WBR

/-- Pandas float cell: an exact rational, NaN (also used for null), or a
signed infinity. -/
inductive PVal where
  | nan : PVal
  | num : ℚ → PVal
  | posInf : PVal
  | negInf : PVal
deriving DecidableEq, Repr

namespace PVal

/-- IEEE-style negation on `PVal`. -/
def neg : PVal → PVal
  | nan => nan
  | num q => num (-q)
  | posInf => negInf
  | negInf => posInf

/-- IEEE-style addition on `PVal` (NaN absorbs; opposite infinities give NaN). -/
def add : PVal → PVal → PVal
  | nan, _ => nan
  | _, nan => nan
  | num a, num b => num (a + b)
  | num _, posInf => posInf
  | posInf, num _ => posInf
  | num _, negInf => negInf
  | negInf, num _ => negInf
  | posInf, posInf => posInf
  | negInf, negInf => negInf
  | posInf, negInf => nan
  | negInf, posInf => nan

/-- IEEE-style subtraction on `PVal`. -/
def sub (a b : PVal) : PVal := a.add b.neg

/-- IEEE-style multiplication on `PVal` (0 × inf = NaN; sign rules). -/
def mul : PVal → PVal → PVal
  | nan, _ => nan
  | _, nan => nan
  | num a, num b => num (a * b)
  | num a, posInf => if a = 0 then nan else if 0 < a then posInf else negInf
  | posInf, num a => if a = 0 then nan else if 0 < a then posInf else negInf
  | num a, negInf => if a = 0 then nan else if 0 < a then negInf else posInf
  | negInf, num a => if a = 0 then nan else if 0 < a then negInf else posInf
  | posInf, posInf => posInf
  | negInf, negInf => posInf
  | posInf, negInf => negInf
  | negInf, posInf => negInf

/-- IEEE-style division on `PVal` (x/0 = signed infinity, 0/0 = NaN,
x/inf = 0, inf/inf = NaN), matching numpy float64 division as used by
pandas `.div` and the scalar arithmetic in `calculate_yoy_box_total`. -/
def div : PVal → PVal → PVal
  | nan, _ => nan
  | _, nan => nan
  | num a, num b =>
      if b = 0 then (if a = 0 then nan else if 0 < a then posInf else negInf)
      else num (a / b)
  | num _, posInf => num 0
  | num _, negInf => num 0
  | posInf, num b => if 0 ≤ b then posInf else negInf
  | negInf, num b => if 0 ≤ b then negInf else posInf
  | posInf, posInf => nan
  | posInf, negInf => nan
  | negInf, posInf => nan
  | negInf, negInf => nan

end PVal

/-- `Series.replace([0], np.nan)` on one cell, as used at
`wbr.py:1191` (`calculate_box_totals`) and `wbr.py:1018`/`1025`
(`aggregate_months_to_fiscal_year_end`). -/
def zeroToNan (v : PVal) : PVal := if v = PVal.num 0 then PVal.nan else v

/-- `fillna(0)` / `replace(np.nan, 0)` on one cell
(`wbr.py:1251`, `wbr.py:828`, `wbr.py:881`). -/
def fillnaZero (v : PVal) : PVal := if v = PVal.nan then PVal.num 0 else v

/-- Pandas `DataFrame.sum(axis=1)` over one row (default `skipna=True`):
NaN entries are skipped, the empty row sums to 0. -/
def rowSumSkipna (vs : List PVal) : PVal :=
  vs.foldl (fun acc v => if v = PVal.nan then acc else acc.add v) (PVal.num 0)

/-- Pandas `Series.sum(skipna=False)`: any NaN poisons the sum; the empty
series sums to 0.  This is the lambda produced by `build_agg` for
`aggf = sum` (`wbr.py:16`). -/
def sumSkipnaFalse (vs : List PVal) : PVal :=
  vs.foldl PVal.add (PVal.num 0)

/-- A pandas data frame, as a list of named columns (the `Date` column is
kept separately or dropped, exactly as in the source). -/
abbrev Frame := List (String × List PVal)

/-- Column selection `df[c]` (the engine only selects existing columns;
a missing column is modelled as the empty column, and the presence check
that mirrors pandas' `KeyError` lives in `hasCol`). -/
def getCol (f : Frame) (c : String) : List PVal :=
  ((f.find? (fun p => p.1 = c)).map Prod.snd).getD []

/-- Does the frame have column `c`?  Selecting an absent column raises
`KeyError` in pandas. -/
def hasCol (f : Frame) (c : String) : Bool :=
  (f.find? (fun p => p.1 = c)).isSome

/-- Column assignment `df[c] = v` (overwrites an existing column). -/
def setCol (f : Frame) (c : String) (v : List PVal) : Frame :=
  f.filter (fun p => p.1 ≠ c) ++ [(c, v)]

/-- Cell access `df[c][i]` on a materialized column.  Out-of-range access
does not occur in the source; NaN is the inert default. -/
def cell (col : List PVal) (i : Nat) : PVal := col.getD i PVal.nan

/-- Number of rows of a frame (all columns have equal length in pandas). -/
def frameRows (f : Frame) : Nat := (f.headD ("", [])).2.length

/-- `df.replace(...)` applied cell-wise to a whole frame. -/
def frameMap (g : PVal → PVal) (f : Frame) : Frame :=
  f.map (fun p => (p.1, p.2.map g))

/-- Basis-point comparison `(cy - py) * 10000` applied in
`calculate_box_totals` (`wbr.py:1217`-`1226`). -/
def bpsCmp (c p : PVal) : PVal := (c.sub p).mul (PVal.num 10000)

/-- Percent-change comparison `(cy / py - 1) * 100` applied in
`calculate_box_totals` (`wbr.py:1230`-`1244`). -/
def pctCmp (c p : PVal) : PVal := ((c.div p).sub (PVal.num 1)).mul (PVal.num 100)

/-- The ten period aggregates of one metric, in the order of
`dataframe_list` in `calculate_box_totals` (`wbr.py:1136`-`1187`):
CY wk6, CY wk5, PY wk6, PY wk5, CY MTD, PY MTD, CY QTD, PY QTD,
CY YTD, PY YTD.  Cleaning replaces 0 by NaN (`wbr.py:1190`-`1191`);
the concatenation of the cleaned aggregates is `yoy_required_metrics_data`
(the period summary). -/
def periodAggregatesCleaned (raw : List PVal) : List PVal := raw.map zeroToNan

/-- One metric column of `box_totals` as assembled by
`calculate_box_totals` (`wbr.py:1196`-`1254`): the nine rows
LastWk, WOW, YOY(wk), MTD, YOY(MTD), QTD, YOY(QTD), YTD, YOY(YTD),
computed from the cleaned period aggregates, with every frame in the
assembly passed through `fillna(0)` (`wbr.py:1251`). -/
def baseBoxColumn (isBps : Bool) (raw : List PVal) : List PVal :=
  let v := periodAggregatesCleaned raw
  let g := fun i => cell v i
  let cmp := if isBps then bpsCmp else pctCmp
  [g 0, cmp (g 0) (g 1), cmp (g 0) (g 2),
   g 4, cmp (g 4) (g 5),
   g 6, cmp (g 6) (g 7),
   g 8, cmp (g 8) (g 9)].map fillnaZero

/-- A value as it is finally displayed in the deck. -/
inductive Disp where
  | val : ℚ → Disp
  | na : Disp
deriving DecidableEq, Repr

/-- Emission of one box-total cell by `create_wbr_metrics`
(`wbr.py:205`-`209`): `replace([inf, -inf], "N/A")` followed by
`fillna("N/A")`. -/
def emitBoxCell : PVal → Disp
  | PVal.num q => Disp.val q
  | _ => Disp.na

/-- Emission of one chart/table-frame cell by `create_wbr_metrics`
(`wbr.py:200`-`203`, `211`): `replace([inf, -inf], np.nan)`; NaN renders
as null. -/
def chartClean : PVal → PVal
  | PVal.posInf => PVal.nan
  | PVal.negInf => PVal.nan
  | v => v

/-- The four function-metric operations (`function` key of a metric
definition). -/
inductive Op where
  | sum : Op
  | difference : Op
  | product : Op
  | divide : Op
deriving DecidableEq, Repr

/-- One row of a function-metric column, from the row values of the
operand columns: `sum` is pandas `DataFrame.sum(axis=1)` (N-ary, skipna),
the other three are the binary `sub` / `mul` / `div` of the first two
operand columns (`function_*_calculation`, `wbr.py:562`-`752`). -/
def applyOpRow : Op → List PVal → PVal
  | Op.sum, vs => rowSumSkipna vs
  | Op.difference, vs => (cell vs 0).sub (cell vs 1)
  | Op.product, vs => (cell vs 0).mul (cell vs 1)
  | Op.divide, vs => (cell vs 0).div (cell vs 1)

/-- The whole function-metric column over the operand columns of frame
`f`, with `n` rows (pandas aligns all columns of a frame on one index). -/
def opColumn (op : Op) (f : Frame) (cols : List String) (n : Nat) : List PVal :=
  (List.range n).map (fun i => applyOpRow op (cols.map (fun c => cell (getCol f c) i)))

/-- `WBR.calculate_yoy_box_total` (`wbr.py:966`-`968`): basis points when
the function metric is in `function_bps_metrics`, percent change
otherwise. -/
def calculateYoyBoxTotal (isFnBps : Bool) (o1 o2 : PVal) : PVal :=
  if isFnBps then (o1.sub o2).mul (PVal.num 10000)
  else ((o1.div o2).sub (PVal.num 1)).mul (PVal.num 100)

/-- `apply_sum_operations` (`wbr_utility.py:80`-`85`): Python sum of the
operand cells of row `index`, starting from the int 0. -/
def applySumOperations (f : Frame) (cols : List String) (index : Nat) : PVal :=
  cols.foldl (fun acc c => acc.add (cell (getCol f c) index)) (PVal.num 0)

/-- `apply_operation_and_return_denominator_values`
(`wbr_utility.py:37`-`77`): the five denominator values at period-summary
rows 1, 2, 5, 7, 9, with any exact 0 replaced by NaN. -/
def applyOperationAndReturnDenominatorValues (op : Op) (cols : List String)
    (f : Frame) : List PVal :=
  let raw : List PVal :=
    match op with
    | Op.sum => [1, 2, 5, 7, 9].map (fun i => applySumOperations f cols i)
    | Op.difference =>
        [1, 2, 5, 7, 9].map (fun i =>
          (cell (getCol f (cols.getD 0 "")) i).sub (cell (getCol f (cols.getD 1 "")) i))
    | _ => []
  raw.map zeroToNan

/-- `WBR.box_total_sum_calculation` (`wbr.py:807`-`856`).  Writes the
metric column of the period summary as the row-sum over ALL of its columns
(line 821 uses `iloc[:].sum(axis=1)` on the whole frame), builds the
NaN-to-zero copy `yoy_field_values`, and overwrites the five comparison
rows of the box column.  Returns the updated period summary and box
column. -/
def boxTotalSumCalculation (isFnBps : Bool) (ps : Frame) (name : String)
    (cols : List String) (box : List PVal) : Frame × List PVal :=
  let psCol := (List.range (frameRows ps)).map
    (fun i => rowSumSkipna (ps.map (fun p => cell p.2 i)))
  let ps1 := setCol ps name psCol
  let yfv := frameMap fillnaZero ps1
  let vl := applyOperationAndReturnDenominatorValues Op.sum cols yfv
  let box := box.set 1 (calculateYoyBoxTotal isFnBps (applySumOperations yfv cols 0) (cell vl 0))
  let box := box.set 2 (calculateYoyBoxTotal isFnBps (applySumOperations yfv cols 0) (cell vl 1))
  let box := box.set 4 (calculateYoyBoxTotal isFnBps (applySumOperations yfv cols 4) (cell vl 2))
  let box := box.set 6 (calculateYoyBoxTotal isFnBps (applySumOperations yfv cols 6) (cell vl 3))
  let box := box.set 8 (calculateYoyBoxTotal isFnBps (applySumOperations yfv cols 8) (cell vl 4))
  (ps1, box)

/-- `WBR.box_total_diff_calculation` (`wbr.py:858`-`911`): like the sum
path, but the period-summary metric column and the closure numerators are
the difference of the two operand columns. -/
def boxTotalDiffCalculation (isFnBps : Bool) (ps : Frame) (name : String)
    (cols : List String) (box : List PVal) : Frame × List PVal :=
  let c0 := cols.getD 0 ""
  let c1 := cols.getD 1 ""
  let psCol := (List.range (frameRows ps)).map
    (fun i => (cell (getCol ps c0) i).sub (cell (getCol ps c1) i))
  let ps1 := setCol ps name psCol
  let yfv := frameMap fillnaZero ps1
  let vl := applyOperationAndReturnDenominatorValues Op.difference cols yfv
  let numAt := fun i => (cell (getCol yfv c0) i).sub (cell (getCol yfv c1) i)
  let box := box.set 1 (calculateYoyBoxTotal isFnBps (numAt 0) (cell vl 0))
  let box := box.set 2 (calculateYoyBoxTotal isFnBps (numAt 0) (cell vl 1))
  let box := box.set 4 (calculateYoyBoxTotal isFnBps (numAt 4) (cell vl 2))
  let box := box.set 6 (calculateYoyBoxTotal isFnBps (numAt 6) (cell vl 3))
  let box := box.set 8 (calculateYoyBoxTotal isFnBps (numAt 8) (cell vl 4))
  (ps1, box)

/-- `WBR.box_total_div_calculation` (`wbr.py:754`-`805`): the closure
operands are ratios of raw period-summary cells; no NaN-to-zero and no
zero-to-NaN replacement is applied. -/
def boxTotalDivCalculation (isFnBps : Bool) (ps : Frame) (name : String)
    (cols : List String) (box : List PVal) : Frame × List PVal :=
  let c0 := cols.getD 0 ""
  let c1 := cols.getD 1 ""
  let psCol := (List.range (frameRows ps)).map
    (fun i => (cell (getCol ps c0) i).div (cell (getCol ps c1) i))
  let ps1 := setCol ps name psCol
  let r := fun i => (cell (getCol ps1 c0) i).div (cell (getCol ps1 c1) i)
  let box := box.set 1 (calculateYoyBoxTotal isFnBps (r 0) (r 1))
  let box := box.set 2 (calculateYoyBoxTotal isFnBps (r 0) (r 2))
  let box := box.set 4 (calculateYoyBoxTotal isFnBps (r 4) (r 5))
  let box := box.set 6 (calculateYoyBoxTotal isFnBps (r 6) (r 7))
  let box := box.set 8 (calculateYoyBoxTotal isFnBps (r 8) (r 9))
  (ps1, box)

/-- `WBR.box_total_product_calculation` (`wbr.py:913`-`964`): like the
divide path, with products of raw period-summary cells. -/
def boxTotalProductCalculation (isFnBps : Bool) (ps : Frame) (name : String)
    (cols : List String) (box : List PVal) : Frame × List PVal :=
  let c0 := cols.getD 0 ""
  let c1 := cols.getD 1 ""
  let psCol := (List.range (frameRows ps)).map
    (fun i => (cell (getCol ps c0) i).mul (cell (getCol ps c1) i))
  let ps1 := setCol ps name psCol
  let r := fun i => (cell (getCol ps1 c0) i).mul (cell (getCol ps1 c1) i)
  let box := box.set 1 (calculateYoyBoxTotal isFnBps (r 0) (r 1))
  let box := box.set 2 (calculateYoyBoxTotal isFnBps (r 0) (r 2))
  let box := box.set 4 (calculateYoyBoxTotal isFnBps (r 4) (r 5))
  let box := box.set 6 (calculateYoyBoxTotal isFnBps (r 6) (r 7))
  let box := box.set 8 (calculateYoyBoxTotal isFnBps (r 8) (r 9))
  (ps1, box)

/-- Dispatch of `__box_total_calc_dict` (`wbr.py:93`-`98`). -/
def boxTotalCalc (op : Op) (isFnBps : Bool) (ps : Frame) (name : String)
    (cols : List String) (box : List PVal) : Frame × List PVal :=
  match op with
  | Op.sum => boxTotalSumCalculation isFnBps ps name cols box
  | Op.difference => boxTotalDiffCalculation isFnBps ps name cols box
  | Op.divide => boxTotalDivCalculation isFnBps ps name cols box
  | Op.product => boxTotalProductCalculation isFnBps ps name cols box

/-- The seven artifacts the function-metric evaluator writes into
(`Date` columns dropped; PY frames carry the `PY__` column prefix). -/
structure Artifacts where
  cyWeekly : Frame
  pyWeekly : Frame
  cyMonthly : Frame
  pyMonthly : Frame
  boxTotals : Frame
  pyBox : Frame
  periodSummary : Frame
deriving DecidableEq, Repr

/-- `WBR.function_{sum,diff,product,div}_calculation`
(`wbr.py:562`-`752`): evaluate one function metric.  The operand data is
read from the artifacts first; the new column is written into the CY and
PY weekly and monthly frames, the period summary, and both box-total
frames, with the five comparison rows of the CY box column overwritten by
the `box_total_*_calculation` closure. -/
def applyFunctionMetric (op : Op) (isFnBps : Bool) (cols pyCols : List String)
    (name : String) (a : Artifacts) : Artifacts :=
  let lenOf := fun (f : Frame) (cs : List String) => (getCol f (cs.getD 0 "")).length
  let cyW := setCol a.cyWeekly name (opColumn op a.cyWeekly cols (lenOf a.cyWeekly cols))
  let pyW := setCol a.pyWeekly ("PY__" ++ name)
    (opColumn op a.pyWeekly pyCols (lenOf a.pyWeekly pyCols))
  let cyM := setCol a.cyMonthly name (opColumn op a.cyMonthly cols (lenOf a.cyMonthly cols))
  let pyM := setCol a.pyMonthly ("PY__" ++ name)
    (opColumn op a.pyMonthly pyCols (lenOf a.pyMonthly pyCols))
  let boxCol := opColumn op a.boxTotals cols (lenOf a.boxTotals cols)
  let pr := boxTotalCalc op isFnBps a.periodSummary name cols boxCol
  let box1 := setCol a.boxTotals name pr.2
  let pyBox1 := setCol a.pyBox name (opColumn op a.pyBox cols (lenOf a.pyBox cols))
  { cyWeekly := cyW, pyWeekly := pyW, cyMonthly := cyM, pyMonthly := pyM,
    boxTotals := box1, pyBox := pyBox1, periodSummary := pr.1 }

/-- The per-metric aggregation entry produced by `build_agg`
(`wbr.py:12`-`18`): the skipna-False sum lambda for `aggf = sum`, or the
aggregation name string otherwise. -/
inductive AggFn where
  | sumLambda : AggFn
  | named : String → AggFn
deriving DecidableEq, Repr

/-- `build_agg` (`wbr.py:12`-`18`): `None` for function metrics, the
skipna-False sum lambda for `aggf = sum`, the name string otherwise. -/
def buildAgg (hasFunctionKey : Bool) (aggf : String) : Option AggFn :=
  if hasFunctionKey then none
  else if aggf = "sum" then some AggFn.sumLambda
  else some (AggFn.named aggf)

/-- Count of non-NaN entries (pandas `count`). -/
def countNonNan (vs : List PVal) : Nat := (vs.filter (fun v => v ≠ PVal.nan)).length

/-- Pandas semantics of applying an aggregation entry to the values of one
resample/groupby bucket: the sum lambda keeps NaN; `mean` skips NaN (NaN on
an empty bucket, as 0/0); `first`/`last` take the first/last non-NaN value.
Unknown names would raise in pandas and never reach this point. -/
def applyAggFn : AggFn → List PVal → PVal
  | AggFn.sumLambda, vs => sumSkipnaFalse vs
  | AggFn.named "mean", vs => (rowSumSkipna vs).div (PVal.num (countNonNan vs))
  | AggFn.named "first", vs => (vs.find? (fun v => v ≠ PVal.nan)).getD PVal.nan
  | AggFn.named "last", vs => (vs.reverse.find? (fun v => v ≠ PVal.nan)).getD PVal.nan
  | AggFn.named _, _ => PVal.nan

/-- Week bucket of day `d` for anchor `weekEnding` (same weekday), for the
41-day window of `create_trailing_six_weeks`: bucket 5 is the week ending
on `weekEnding` (`closed=right`), bucket 0 the earliest. -/
def bucketIdx (weekEnding d : ℤ) : ℕ := 5 - (weekEnding - d).toNat / 7

/-- The `df.query('Date >= @six_weeks_ago and Date <= @week_ending')` step
of `create_trailing_six_weeks` (`wbr_utility.py:208`-`211`). -/
def windowFilter (rows : List (ℤ × PVal)) (weekEnding : ℤ) : List (ℤ × PVal) :=
  rows.filter (fun r => decide (weekEnding - 41 ≤ r.1) && decide (r.1 ≤ weekEnding))

/-- The earliest week bucket holding a row of the filtered window (the
first resample bin pandas emits). -/
def minBucket (weekEnding : ℤ) (f : ℤ × PVal) (fs : List (ℤ × PVal)) : ℕ :=
  ((f :: fs).map (fun r => bucketIdx weekEnding r.1)).foldl min
    (bucketIdx weekEnding f.1)

/-- The latest week bucket holding a row of the filtered window (the last
resample bin pandas emits). -/
def maxBucket (weekEnding : ℤ) (f : ℤ × PVal) (fs : List (ℤ × PVal)) : ℕ :=
  ((f :: fs).map (fun r => bucketIdx weekEnding r.1)).foldl max
    (bucketIdx weekEnding f.1)

/-- The aggregate of one resample bucket: the metric aggregation applied
to the values of the rows falling into week bucket `b`. -/
def bucketAgg (weekEnding : ℤ) (l : List (ℤ × PVal)) (agg : AggFn) (b : ℕ) :
    PVal :=
  applyAggFn agg ((l.filter (fun r => bucketIdx weekEnding r.1 = b)).map Prod.snd)

/-- `create_trailing_six_weeks` (`wbr_utility.py:181`-`237`) for one
metric column: filter to the 41-day window ending on `weekEnding`,
resample into weeks ending on `weekEnding`'s weekday (label = right edge,
buckets spanning from the bucket of the earliest to that of the latest
present row, empty buckets aggregated over no rows), left-pad with
NaN-valued rows at 7-day steps to exactly 6 rows, sorted ascending by
date. -/
def trailingSixWeeksCol (rows : List (ℤ × PVal)) (weekEnding : ℤ)
    (agg : AggFn) : List (ℤ × PVal) :=
  match windowFilter rows weekEnding with
  | [] => (List.range 6).map (fun i => (weekEnding - 7 * (5 - (i : ℤ)), PVal.nan))
  | f :: fs =>
    let minB := minBucket weekEnding f fs
    let maxB := maxBucket weekEnding f fs
    let nb := maxB - minB + 1
    let core := (List.range nb).map (fun k =>
      (weekEnding - 7 * (5 - ((minB + k : ℕ) : ℤ)),
       bucketAgg weekEnding (f :: fs) agg (minB + k)))
    let pad := 6 - nb
    let earliest := weekEnding - 7 * (5 - (minB : ℤ))
    ((List.range pad).map (fun i => (earliest - 7 * ((pad : ℤ) - (i : ℤ)), PVal.nan)))
      ++ core

/-- `WBR.aggregate_week_ending_month` (`wbr.py:1038`-`1092`) for one
metric column: filter the daily rows to the month of `week_ending`
(from its first to its LAST day), null the metric when the number of rows
differs from the number of non-null metric values, otherwise aggregate
(`last` takes the last row, `first` the first row, anything else goes
through `Series.agg`). -/
def aggregateWeekEndingMonthCol (rows : List (ℤ × PVal)) (agg : AggFn)
    (firstOfMonth lastOfMonth : ℤ) : PVal :=
  let m := rows.filter
    (fun r => decide (firstOfMonth ≤ r.1) && decide (r.1 ≤ lastOfMonth))
  if m.length ≠ countNonNan (m.map Prod.snd) then PVal.nan
  else
    match agg with
    | AggFn.named "last" => ((m.getLast?).map Prod.snd).getD PVal.nan
    | AggFn.named "first" => ((m.head?).map Prod.snd).getD PVal.nan
    | a => applyAggFn a (m.map Prod.snd)

/-- The partial-month aggregate as claim C5 words it (spec §4.3): the
observation window is `[first of month, week_ending]` and the guard
compares the number of non-null daily observations against the number of
days in that interval. -/
def aggregateWeekEndingMonthClaim (rows : List (ℤ × PVal)) (agg : AggFn)
    (firstOfMonth weekEnding : ℤ) : PVal :=
  let m := rows.filter
    (fun r => decide (firstOfMonth ≤ r.1) && decide (r.1 ≤ weekEnding))
  if (countNonNan (m.map Prod.snd) : ℤ) ≠ weekEnding - firstOfMonth + 1 then PVal.nan
  else
    match agg with
    | AggFn.named "last" => ((m.getLast?).map Prod.snd).getD PVal.nan
    | AggFn.named "first" => ((m.head?).map Prod.snd).getD PVal.nan
    | a => applyAggFn a (m.map Prod.snd)

/-- The validator-relevant shape of one metric definition
(`validator.py:146`-`162`). -/
structure VMetricCfg where
  hasFunction : Bool
  hasAggf : Bool
  hasColumn : Bool
  hasFilter : Bool
  comparisonMethod : Option String
  line : Nat
deriving DecidableEq, Repr

/-- The two checks of `WBRValidator.validate_aggf` for one metric
(`validator.py:150`-`162`); the error carries the config line. -/
def validateAggfOne (c : VMetricCfg) : Except Nat Unit :=
  if ¬c.hasFunction ∧ (¬c.hasAggf ∨ (¬c.hasColumn ∧ ¬c.hasFilter)) then
    Except.error c.line
  else if (match c.comparisonMethod with
           | some s => decide (s ≠ "bps")
           | none => false) then
    Except.error c.line
  else Except.ok ()

/-- `WBRValidator.validate_aggf` (`validator.py:135`-`162`): the config
loop, raising at the first offending metric. -/
def validateAggf : List (String × VMetricCfg) → Except Nat Unit
  | [] => Except.ok ()
  | m :: rest =>
    match validateAggfOne m.2 with
    | Except.error e => Except.error e
    | Except.ok _ => validateAggf rest

/-- `bps_or_percentile_collector` (`wbr.py:21`-`23`): a metric is in the
bps class iff `metric_comparison_method` is present and equals `bps`;
everything else (including an absent key) falls into the percent-change
class. -/
def bpsOrPercentileCollector (c : VMetricCfg) : Bool :=
  c.comparisonMethod = some "bps"

/-- The `self.metrics_configs.__delitem__("__line__")` step of
`WBR.__init__` (`wbr.py:108`): deletes the key from the caller's metrics
mapping, raising `KeyError` when it is absent (as `dict.__delitem__`
does). -/
def deleteLineKey {α : Type} (metrics : List (String × α)) :
    Except String (List (String × α)) :=
  if (metrics.find? (fun p => p.1 = "__line__")).isSome then
    Except.ok (metrics.filter (fun p => p.1 ≠ "__line__"))
  else Except.error "KeyError"

/-- One operand of a function-metric definition: a `column` entry, a
`metric` entry without an inline `function` (a reference by name), or a
`metric` entry with an inline nested `function` definition. -/
inductive Operand where
  | column : String → Operand
  | metricRef : String → Operand
  | metricFn : String → Op → List Operand → Nat → Operand

/-- Whether an operand entry carries the `metric` key. -/
def isMetricOperand : Operand → Bool
  | Operand.column _ => false
  | Operand.metricRef _ => true
  | Operand.metricFn _ _ _ _ => true

/-- The `name` field of an operand entry. -/
def operandName : Operand → String
  | Operand.column n => n
  | Operand.metricRef n => n
  | Operand.metricFn n _ _ _ => n

/-- Python `itertools.groupby` over the operand list keyed on
metric-vs-column: the maximal runs of consecutive operands of the same
kind, outermost first. -/
def runsByKind : List Operand → List (Bool × List Operand)
  | [] => []
  | o :: rest =>
    match runsByKind rest with
    | [] => [(isMetricOperand o, [o])]
    | (k, r) :: rs =>
      if isMetricOperand o = k then (k, o :: r) :: rs
      else (isMetricOperand o, [o]) :: (k, r) :: rs

/-- The dict comprehension over `groupby` in
`recursive_function_calculator` (`wbr.py:524`-`527`) keeps, for each key,
only the LAST run of that key. -/
def lastRunOf (k : Bool) (rs : List (Bool × List Operand)) : List Operand :=
  ((((rs.filter (fun p => p.1 = k)).getLast?).map Prod.snd).getD [])

/-- The `grouped` dictionary of `recursive_function_calculator`: the
metric-kind group and the column-kind group (each the last consecutive run
of its kind). -/
def collectGroups (ops : List Operand) : List Operand × List Operand :=
  (lastRunOf true (runsByKind ops), lastRunOf false (runsByKind ops))

/-- The errors the function-metric evaluation can surface.  The source
raises `KeyError` citing the config line (`wbr.py:556`-`560`); the
`circularDependency` constructor is modelled from the spec (its §7 names a
`CircularDependencyError` raised by the dependency traversal with the
offending metric name and line) — no such error class exists anywhere in
the repository, and the embedded evaluator never produces this
constructor. -/
inductive WbrError where
  | keyError : Nat → WbrError
  | circularDependency : String → Nat → WbrError
deriving DecidableEq, Repr

/-- Does an evaluation result carry a circular-dependency error? -/
def isCircularDependency : Except WbrError Artifacts → Bool
  | Except.error (WbrError.circularDependency _ _) => true
  | _ => false

theorem one_le_sizeOf_opList (l : List Operand) : 1 ≤ sizeOf l := by
  cases l with
  | nil => simp
  | cons a t => simp only [List.cons.sizeOf_spec]; omega

theorem sizeOf_mem_runsByKind :
    ∀ (l : List Operand) (p : Bool × List Operand), p ∈ runsByKind l →
      sizeOf p.2 ≤ sizeOf l := by
  intro l
  induction l with
  | nil => intro p hp; simp [runsByKind] at hp
  | cons o rest ih =>
    intro p hp
    simp only [runsByKind] at hp
    rcases hr : runsByKind rest with _ | ⟨⟨k, r⟩, rs⟩
    · rw [hr] at hp
      simp only [List.mem_singleton] at hp
      subst hp
      have h1 := one_le_sizeOf_opList rest
      simp only [List.cons.sizeOf_spec, List.nil.sizeOf_spec]
      omega
    · rw [hr] at hp
      by_cases hk : isMetricOperand o = k
      · simp only [hk, if_true] at hp
        rcases List.mem_cons.mp hp with h1 | h2
        · subst h1
          have := ih (k, r) (by rw [hr]; exact List.mem_cons_self _ _)
          simp only [List.cons.sizeOf_spec] at this ⊢
          omega
        · have := ih p (by rw [hr]; exact List.mem_cons_of_mem _ h2)
          simp only [List.cons.sizeOf_spec]
          omega
      · simp only [hk, if_false] at hp
        rcases List.mem_cons.mp hp with h1 | h2
        · subst h1
          have h1 := one_le_sizeOf_opList rest
          simp only [List.cons.sizeOf_spec, List.nil.sizeOf_spec]
          omega
        · have := ih p (by rw [hr]; exact h2)
          simp only [List.cons.sizeOf_spec]
          omega

theorem sizeOf_lastRunOf (k : Bool) (l : List Operand) :
    sizeOf (lastRunOf k (runsByKind l)) ≤ sizeOf l := by
  unfold lastRunOf
  rcases hg : ((runsByKind l).filter (fun p => p.1 = k)).getLast? with _ | p
  · have h1 := one_le_sizeOf_opList l
    simp [hg]
    omega
  · simp only [hg, Option.map_some, Option.getD_some]
    have hmem : p ∈ (runsByKind l).filter (fun p => p.1 = k) := by
      have hin : p ∈ ((runsByKind l).filter (fun p => p.1 = k)).getLast? := by
        rw [hg]; rfl
      rcases List.mem_getLast?_eq_getLast hin with ⟨hne, hp⟩
      rw [hp]; exact List.getLast_mem hne
    exact sizeOf_mem_runsByKind l p (List.mem_filter.mp hmem).1

mutual

/-- `WBR.recursive_function_calculator` (`wbr.py:505`-`560`): group the
operands, recurse into the inline nested function metrics of the metric
group, build `column_list` (metric-group names then column-group names)
and the `PY__`-prefixed list, and apply the operation; a column absent
from the artifacts makes the pandas selection raise, which the source
re-raises as `KeyError` citing the config line. -/
def rfcOne (fnBps : List String) (name : String) (op : Op)
    (args : List Operand) (line : Nat) (a : Artifacts) :
    Except WbrError Artifacts :=
  let mops := (collectGroups args).1
  let cops := (collectGroups args).2
  match rfcList fnBps mops a with
  | Except.error e => Except.error e
  | Except.ok a1 =>
    let columnList := mops.map operandName ++ cops.map operandName
    let pyList := columnList.map (fun c => "PY__" ++ c)
    if columnList.all (fun c => hasCol a1.cyWeekly c) &&
       pyList.all (fun c => hasCol a1.pyWeekly c) &&
       columnList.all (fun c => hasCol a1.cyMonthly c) &&
       pyList.all (fun c => hasCol a1.pyMonthly c) &&
       columnList.all (fun c => hasCol a1.boxTotals c) &&
       columnList.all (fun c => hasCol a1.pyBox c) &&
       columnList.all (fun c => hasCol a1.periodSummary c) then
      Except.ok (applyFunctionMetric op (fnBps.contains name) columnList pyList name a1)
    else Except.error (WbrError.keyError line)
termination_by 2 * sizeOf args + 1
decreasing_by
  simp only [collectGroups]
  have := sizeOf_lastRunOf true args
  omega

/-- The recursion of `recursive_function_calculator` over the metric
group: each operand carrying an inline `function` is computed first. -/
def rfcList (fnBps : List String) (ops : List Operand) (a : Artifacts) :
    Except WbrError Artifacts :=
  match ops with
  | [] => Except.ok a
  | Operand.metricFn n op args line :: rest =>
    match rfcOne fnBps n op args line a with
    | Except.error e => Except.error e
    | Except.ok a1 => rfcList fnBps rest a1
  | _ :: rest => rfcList fnBps rest a
termination_by 2 * sizeOf ops
decreasing_by
  all_goals (simp only [List.cons.sizeOf_spec, Operand.metricFn.sizeOf_spec]; omega)

end

/-- One top-level function-metric configuration entry
(`metrics_configs` restricted to `function` metrics). -/
structure FnMetricCfg where
  name : String
  op : Op
  operands : List Operand
  line : Nat

/-- `WBR.compute_functional_metrics` (`wbr.py:496`-`503`): run
`recursive_function_calculator` over the function metrics in config
order; a raised error propagates immediately. -/
def computeFunctionalMetrics (fnBps : List String) (cfgs : List FnMetricCfg)
    (a : Artifacts) : Except WbrError Artifacts :=
  match cfgs with
  | [] => Except.ok a
  | c :: rest =>
    match rfcOne fnBps c.name c.op c.operands c.line a with
    | Except.error e => Except.error e
    | Except.ok a1 => computeFunctionalMetrics fnBps rest a1

/-- The operand value the spec's description of the YoY closure assigns to
period-summary row `i` for the `sum` and `difference` paths: operand cells
with null replaced by zero, combined by the operation. -/
def filledOpValue (op : Op) (ps : Frame) (cols : List String) (i : Nat) : PVal :=
  match op with
  | Op.sum =>
      cols.foldl (fun acc c => acc.add (fillnaZero (cell (getCol ps c) i))) (PVal.num 0)
  | Op.difference =>
      (fillnaZero (cell (getCol ps (cols.getD 0 "")) i)).sub
        (fillnaZero (cell (getCol ps (cols.getD 1 "")) i))
  | _ => PVal.nan

/-- The operand value the spec's description of the YoY closure assigns to
period-summary row `i` for the `divide` and `product` paths: raw operand
cells, no replacement. -/
def rawOpValue (op : Op) (ps : Frame) (cols : List String) (i : Nat) : PVal :=
  match op with
  | Op.divide =>
      (cell (getCol ps (cols.getD 0 "")) i).div (cell (getCol ps (cols.getD 1 "")) i)
  | Op.product =>
      (cell (getCol ps (cols.getD 0 "")) i).mul (cell (getCol ps (cols.getD 1 "")) i)
  | _ => PVal.nan

/-- A constant column of 1s, for concrete test fixtures. -/
def onesCol (n : Nat) : List PVal := List.replicate n (PVal.num 1)

/-- Concrete artifacts holding two base metrics `Cm` and `D` (all 1s), the
shape `WBR.__init__` has built them by the time
`compute_functional_metrics` runs. -/
def twoMetricArts : Artifacts :=
  { cyWeekly := [("Cm", onesCol 6), ("D", onesCol 6)]
    pyWeekly := [("PY__Cm", onesCol 6), ("PY__D", onesCol 6)]
    cyMonthly := [("Cm", onesCol 12), ("D", onesCol 12)]
    pyMonthly := [("PY__Cm", onesCol 12), ("PY__D", onesCol 12)]
    boxTotals := [("Cm", onesCol 9), ("D", onesCol 9)]
    pyBox := [("Cm", onesCol 9), ("D", onesCol 9)]
    periodSummary := [("Cm", onesCol 10), ("D", onesCol 10)] }

/-- The spec's circular-dependency scenario `A = sum(B, C)`,
`B = sum(A, D)`, with the references expressed by name (lines 3 and 5 of
a hypothetical config). -/
def cyclicFnCfg : List FnMetricCfg :=
  [⟨"A", Op.sum, [Operand.metricRef "B", Operand.metricRef "Cm"], 3⟩,
   ⟨"B", Op.sum, [Operand.metricRef "A", Operand.metricRef "D"], 5⟩]

/-- Concrete artifacts with base metrics `A` (1s), `B` (2s) and — in the
period summary only — a third metric `Cx` (4s), as arises whenever the
config declares a base metric that is not an operand of the function
metric under evaluation. -/
def threeMetricArts : Artifacts :=
  { cyWeekly := [("A", onesCol 6), ("B", List.replicate 6 (PVal.num 2))]
    pyWeekly := [("PY__A", onesCol 6), ("PY__B", List.replicate 6 (PVal.num 2))]
    cyMonthly := [("A", onesCol 12), ("B", List.replicate 12 (PVal.num 2))]
    pyMonthly := [("PY__A", onesCol 12), ("PY__B", List.replicate 12 (PVal.num 2))]
    boxTotals := [("A", onesCol 9), ("B", List.replicate 9 (PVal.num 2))]
    pyBox := [("A", onesCol 9), ("B", List.replicate 9 (PVal.num 2))]
    periodSummary := [("A", onesCol 10), ("B", List.replicate 10 (PVal.num 2)),
                      ("Cx", List.replicate 10 (PVal.num 4))] }

/-- The five comparison rows of the box totals paired with the two
period-summary rows they compare: (box row, CY row, baseline row) —
WOW (wk6 vs wk5), YOY wk (wk6 vs PY wk6), YOY MTD, YOY QTD, YOY YTD. -/
def yoyRowTriples : List (ℕ × ℕ × ℕ) :=
  [(1, 0, 1), (2, 0, 2), (4, 4, 5), (6, 6, 7), (8, 8, 9)]

/-! ### Basic lemmas about cells, columns and the value arithmetic -/

theorem cell_map (g : PVal → PVal) (l : List PVal) (i : Nat) (h : i < l.length) :
    cell (l.map g) i = g (cell l i) := by
  simp only [cell, List.getD_eq_getElem?_getD, List.getElem?_map]
  rw [List.getElem?_eq_getElem h]
  rfl

theorem cell_rangeMap (f : Nat → PVal) (n i : Nat) (h : i < n) :
    cell ((List.range n).map f) i = f i := by
  simp only [cell, List.getD_eq_getElem?_getD, List.getElem?_map, List.getElem?_range h]
  rfl

theorem cell_set_ne (l : List PVal) (i j : Nat) (v : PVal) (h : i ≠ j) :
    cell (l.set i v) j = cell l j := by
  simp only [cell, List.getD_eq_getElem?_getD, List.getElem?_set_ne h]

theorem find?_key_append_right (l₁ l₂ : List (String × List PVal)) (c : String)
    (h : ∀ p ∈ l₁, p.1 ≠ c) :
    (l₁ ++ l₂).find? (fun p => p.1 = c) = l₂.find? (fun p => p.1 = c) := by
  induction l₁ with
  | nil => rfl
  | cons a t ih =>
    rw [List.cons_append, List.find?_cons_of_neg _ (by simp [h a (List.mem_cons_self _ _)])]
    exact ih (fun p hp => h p (List.mem_cons_of_mem _ hp))

theorem getCol_setCol_self (f : Frame) (c : String) (v : List PVal) :
    getCol (setCol f c v) c = v := by
  unfold getCol setCol
  rw [find?_key_append_right _ _ _
    (fun p hp => of_decide_eq_true (List.mem_filter.mp hp).2)]
  rw [List.find?_cons_of_pos _ (by simp)]
  rfl

theorem find?_key_setCol_ne (f : Frame) (c c' : String) (v : List PVal)
    (h : c' ≠ c) :
    (setCol f c v).find? (fun p => p.1 = c') = f.find? (fun p => p.1 = c') := by
  induction f with
  | nil =>
    simp only [setCol, List.filter_nil, List.nil_append]
    rw [List.find?_cons_of_neg _ (by simp only [decide_eq_true_eq]; exact fun hx => h hx.symm),
      List.find?_nil]
  | cons p rest ih =>
    by_cases hp : p.1 = c
    · have hp' : ¬p.1 = c' := by rw [hp]; exact fun hx => h hx.symm
      simp only [setCol, List.filter_cons]
      rw [if_neg (by simp [hp])]
      rw [List.find?_cons_of_neg _ (by simp [hp'])]
      exact ih
    · by_cases hc : p.1 = c'
      · simp only [setCol, List.filter_cons]
        rw [if_pos (by simp [hp])]
        rw [List.cons_append, List.find?_cons_of_pos _ (by simp [hc]),
          List.find?_cons_of_pos _ (by simp [hc])]
      · simp only [setCol, List.filter_cons]
        rw [if_pos (by simp [hp])]
        rw [List.cons_append, List.find?_cons_of_neg _ (by simp [hc]),
          List.find?_cons_of_neg _ (by simp [hc])]
        exact ih

theorem getCol_setCol_ne (f : Frame) (c c' : String) (v : List PVal)
    (h : c' ≠ c) : getCol (setCol f c v) c' = getCol f c' := by
  unfold getCol
  rw [find?_key_setCol_ne f c c' v h]

theorem getCol_frameMap (g : PVal → PVal) (f : Frame) (c : String) :
    getCol (frameMap g f) c = (getCol f c).map g := by
  induction f with
  | nil => simp [getCol, frameMap]
  | cons p rest ih =>
    by_cases hp : p.1 = c
    · simp [getCol, frameMap, List.find?, hp]
    · simpa [getCol, frameMap, List.find?, hp] using ih

theorem pval_add_nan_right (a : PVal) : a.add PVal.nan = PVal.nan := by
  cases a <;> rfl

theorem foldl_add_nan (l : List PVal) : l.foldl PVal.add PVal.nan = PVal.nan := by
  induction l with
  | nil => rfl
  | cons a t ih => simpa [List.foldl, PVal.add] using ih

theorem sumSkipnaFalse_of_mem_nan (l : List PVal) (h : PVal.nan ∈ l) :
    sumSkipnaFalse l = PVal.nan := by
  unfold sumSkipnaFalse
  generalize PVal.num 0 = acc
  induction l generalizing acc with
  | nil => simp at h
  | cons a t ih =>
    rcases List.mem_cons.mp h with h1 | h2
    · subst h1
      simp only [List.foldl, pval_add_nan_right]
      exact foldl_add_nan t
    · exact ih h2 _

theorem foldl_skipna_num (qs : List ℚ) (c : ℚ) :
    (qs.map PVal.num).foldl
      (fun acc v => if v = PVal.nan then acc else acc.add v) (PVal.num c)
      = PVal.num (c + qs.sum) := by
  induction qs generalizing c with
  | nil => simp
  | cons q t ih =>
    simp only [List.map_cons, List.foldl, if_neg (by simp : PVal.num q ≠ PVal.nan)]
    rw [show (PVal.num c).add (PVal.num q) = PVal.num (c + q) from rfl, ih, List.sum_cons]
    congr 1
    ring

theorem rowSumSkipna_map_num (qs : List ℚ) :
    rowSumSkipna (qs.map PVal.num) = PVal.num qs.sum := by
  simpa using foldl_skipna_num qs 0

theorem foldl_add_num (qs : List ℚ) (c : ℚ) :
    (qs.map PVal.num).foldl PVal.add (PVal.num c) = PVal.num (c + qs.sum) := by
  induction qs generalizing c with
  | nil => simp
  | cons q t ih =>
    simp only [List.map_cons, List.foldl]
    rw [show (PVal.num c).add (PVal.num q) = PVal.num (c + q) from rfl, ih, List.sum_cons]
    congr 1
    ring

theorem sumSkipnaFalse_map_num (qs : List ℚ) :
    sumSkipnaFalse (qs.map PVal.num) = PVal.num qs.sum := by
  simpa [sumSkipnaFalse] using foldl_add_num qs 0

theorem lt_length_of_cell_ne_nan (l : List PVal) (i : Nat)
    (h : cell l i ≠ PVal.nan) : i < l.length := by
  by_contra hge
  exact h (by simp [cell, List.getD_eq_getElem?_getD,
    List.getElem?_eq_none (Nat.le_of_not_lt hge)])

theorem cell_set_self (l : List PVal) (i : Nat) (v : PVal)
    (h : i < l.length) : cell (l.set i v) i = v := by
  simp [cell, List.getD_eq_getElem?_getD, List.getElem?_set_self, h]

theorem zeroToNan_num (a : ℚ) (h : a ≠ 0) :
    zeroToNan (PVal.num a) = PVal.num a := by
  simp [zeroToNan, h]

theorem fillnaZero_num (q : ℚ) : fillnaZero (PVal.num q) = PVal.num q := by
  simp [fillnaZero]

theorem fillnaZero_ne_nan (v : PVal) : fillnaZero v ≠ PVal.nan := by
  unfold fillnaZero
  split
  · simp
  · assumption

theorem bpsCmp_num (a b : ℚ) :
    bpsCmp (PVal.num a) (PVal.num b) = PVal.num ((a - b) * 10000) := by
  show PVal.num ((a + -b) * 10000) = PVal.num ((a - b) * 10000)
  congr 1
  ring

theorem pval_div_num (a b : ℚ) (hb : b ≠ 0) :
    (PVal.num a).div (PVal.num b) = PVal.num (a / b) := by
  simp [PVal.div, hb]

theorem pctCmp_num (a b : ℚ) (hb : b ≠ 0) :
    pctCmp (PVal.num a) (PVal.num b) = PVal.num ((a / b - 1) * 100) := by
  unfold pctCmp
  rw [pval_div_num a b hb]
  show PVal.num ((a / b + -1) * 100) = PVal.num ((a / b - 1) * 100)
  congr 1
  ring

theorem countNonNan_le_length (vs : List PVal) : countNonNan vs ≤ vs.length :=
  List.length_filter_le _ vs

theorem countNonNan_eq_length_iff (vs : List PVal) :
    countNonNan vs = vs.length ↔ PVal.nan ∉ vs := by
  induction vs with
  | nil => simp [countNonNan]
  | cons v t ih =>
    by_cases hv : v = PVal.nan
    · subst hv
      have h1 := countNonNan_le_length t
      have h2 : countNonNan (PVal.nan :: t) = countNonNan t := by
        simp [countNonNan, List.filter_cons]
      constructor
      · intro h
        rw [h2] at h
        simp only [List.length_cons] at h
        omega
      · intro h
        exact absurd (List.mem_cons_self _ _) h
    · have h2 : countNonNan (v :: t) = countNonNan t + 1 := by
        simp [countNonNan, List.filter_cons, hv]
      rw [h2]
      simp only [List.length_cons, List.mem_cons]
      constructor
      · intro h hc
        rcases hc with h1 | hmem
        · exact hv h1.symm
        · exact (ih.mp (by omega)) hmem
      · intro h
        have := ih.mpr (fun hm => h (Or.inr hm))
        omega

theorem sumSkipnaFalse_all_num (vs : List PVal)
    (h : ∀ v ∈ vs, ∃ q, v = PVal.num q) :
    ∃ q, sumSkipnaFalse vs = PVal.num q := by
  unfold sumSkipnaFalse
  suffices hgen : ∀ (c : ℚ), ∃ q, vs.foldl PVal.add (PVal.num c) = PVal.num q by
    exact hgen 0
  induction vs with
  | nil => exact fun c => ⟨c, rfl⟩
  | cons v t ih =>
    intro c
    rcases h v (List.mem_cons_self _ _) with ⟨q, rfl⟩
    exact ih (fun w hw => h w (List.mem_cons_of_mem _ hw)) (c + q)

theorem foldl_nat_min_le (l : List ℕ) (init : ℕ) : l.foldl min init ≤ init := by
  induction l generalizing init with
  | nil => exact Nat.le_refl _
  | cons a t ih => exact Nat.le_trans (ih _) (Nat.min_le_left _ _)

theorem le_foldl_nat_max (l : List ℕ) (init : ℕ) : init ≤ l.foldl max init := by
  induction l generalizing init with
  | nil => exact Nat.le_refl _
  | cons a t ih => exact Nat.le_trans (Nat.le_max_left _ _) (ih _)

theorem foldl_nat_max_le (l : List ℕ) (init b : ℕ) (hi : init ≤ b)
    (h : ∀ x ∈ l, x ≤ b) : l.foldl max init ≤ b := by
  induction l generalizing init with
  | nil => exact hi
  | cons a t ih =>
    exact ih _ (Nat.max_le.mpr ⟨hi, h a (List.mem_cons_self _ _)⟩)
      (fun x hx => h x (List.mem_cons_of_mem _ hx))

theorem foldl_add_cell_congr (cols : List String) (F G : String → PVal)
    (h : ∀ c ∈ cols, F c = G c) (init : PVal) :
    cols.foldl (fun acc c => acc.add (F c)) init
      = cols.foldl (fun acc c => acc.add (G c)) init := by
  induction cols generalizing init with
  | nil => rfl
  | cons c t ih =>
    simp only [List.foldl]
    rw [h c (List.mem_cons_self _ _)]
    exact ih (fun x hx => h x (List.mem_cons_of_mem _ hx)) _

/-! ### Claim theorems -/

/-- C10 (confirmed): `WBR.__init__` deletes `__line__` from the caller's
`cfg['metrics']` mapping in place — the configuration is not left
unchanged by engine construction — and a second construction from the same
configuration object raises `KeyError` instead of producing the same
deck. -/
theorem c10_init_deletes_line_key {α : Type} (metrics : List (String × α))
    (h : (metrics.find? (fun p => p.1 = "__line__")).isSome = true) :
    ∃ metrics', deleteLineKey metrics = Except.ok metrics'
      ∧ metrics'.find? (fun p => p.1 = "__line__") = none
      ∧ metrics' ≠ metrics
      ∧ deleteLineKey metrics' = Except.error "KeyError" := by
  refine ⟨metrics.filter (fun p => p.1 ≠ "__line__"), ?_, ?_, ?_, ?_⟩
  · simp [deleteLineKey, h]
  · exact List.find?_eq_none.mpr (fun p hp => by
      have := of_decide_eq_true (List.mem_filter.mp hp).2
      simpa using this)
  · intro heq
    have hnone : metrics.find? (fun p => p.1 = "__line__") = none := by
      rw [← heq]
      exact List.find?_eq_none.mpr (fun p hp => by
        have := of_decide_eq_true (List.mem_filter.mp hp).2
        simpa using this)
    rw [hnone] at h
    simp at h
  · have hnone : (metrics.filter (fun p => p.1 ≠ "__line__")).find?
        (fun p => p.1 = "__line__") = none :=
      List.find?_eq_none.mpr (fun p hp => by
        have := of_decide_eq_true (List.mem_filter.mp hp).2
        simpa using this)
    simp [deleteLineKey, hnone]

/-- C10 witness: a concrete metrics mapping with a `__line__` key. -/
theorem c10_witness :
    ∃ metrics', deleteLineKey [("__line__", (7 : ℕ)), ("Sales", 2)] = Except.ok metrics'
      ∧ metrics'.find? (fun p => p.1 = "__line__") = none
      ∧ metrics' ≠ [("__line__", (7 : ℕ)), ("Sales", 2)]
      ∧ deleteLineKey metrics' = Except.error "KeyError" :=
  c10_init_deletes_line_key [("__line__", (7 : ℕ)), ("Sales", 2)] (by decide)

/-- C9 counterexample: the claim says no pipeline step maps an observed 0
to null and that period-summary aggregates of all-zero periods are 0; but
`calculate_box_totals` replaces 0 with NaN in the period aggregates, so
the period summary of an all-zero period holds null, not 0. -/
theorem c9_counterexample :
    cell (periodAggregatesCleaned (List.replicate 10 (PVal.num 0))) 4 = PVal.nan
      ∧ PVal.nan ≠ PVal.num 0 := by
  decide

/-- C9 (amended): zero is NOT preserved through the box-total stage:
`replace([0], nan)` (used on the ten period aggregates in
`calculate_box_totals` and on projected fiscal months in
`aggregate_months_to_fiscal_year_end`) maps exactly 0 and null to null, so
a zero aggregate reaches the period summary as null; the box-total
absolute row then fills the null back to 0 for display. -/
theorem c9_amended_zero_becomes_null :
    (∀ v : PVal, zeroToNan v = PVal.nan ↔ (v = PVal.num 0 ∨ v = PVal.nan)) ∧
    (∀ (raw : List PVal) (i : Nat), i < raw.length → cell raw i = PVal.num 0 →
        cell (periodAggregatesCleaned raw) i = PVal.nan) ∧
    (∀ (raw : List PVal) (isBps : Bool), cell raw 0 = PVal.num 0 →
        cell (baseBoxColumn isBps raw) 0 = PVal.num 0) := by
  refine ⟨?_, ?_, ?_⟩
  · intro v
    unfold zeroToNan
    by_cases hv : v = PVal.num 0
    · simp [hv]
    · simp only [if_neg hv]
      constructor
      · intro hn; exact Or.inr hn
      · intro hor
        rcases hor with h1 | h2
        · exact absurd h1 hv
        · exact h2
  · intro raw i hi h0
    rw [periodAggregatesCleaned, cell_map _ _ _ hi, h0]
    simp [zeroToNan]
  · intro raw isBps h0
    have hi : 0 < raw.length := lt_length_of_cell_ne_nan raw 0 (by rw [h0]; simp)
    have e : cell (baseBoxColumn isBps raw) 0
        = fillnaZero (cell (periodAggregatesCleaned raw) 0) := rfl
    rw [e, periodAggregatesCleaned, cell_map _ _ _ hi, h0]
    simp [zeroToNan, fillnaZero]

/-- C9 witness: an all-zero period-aggregate column — the internal value
is null while the displayed box absolute row is 0. -/
theorem c9_witness :
    cell (baseBoxColumn false (List.replicate 10 (PVal.num 0))) 0 = PVal.num 0 :=
  c9_amended_zero_becomes_null.2.2 (List.replicate 10 (PVal.num 0)) false (by decide)

/-- C8 counterexample: for a pct_change metric whose PY wk6 period
aggregate is exactly 0, the YOY-wk comparison computes NaN (0 was replaced
by NaN, and division by NaN is NaN), but the box-total cell is emitted as
the number 0 — not as the string "N/A" — because box assembly fills NaN
comparison cells with 0 before emission. -/
theorem c8_counterexample :
    pctCmp (PVal.num 2) (zeroToNan (PVal.num 0)) = PVal.nan
      ∧ cell (baseBoxColumn false
          [PVal.num 2, PVal.num 1, PVal.num 0, PVal.num 1, PVal.num 1,
           PVal.num 1, PVal.num 1, PVal.num 1, PVal.num 1, PVal.num 1]) 2
          = PVal.num 0
      ∧ emitBoxCell (PVal.num 0) = Disp.val 0 := by
  decide

/-- C8 (amended): at emission, box-total cells that are ±∞ or NaN become
the string "N/A" and chart/table-frame cells that are ±∞ become null (NaN
already renders as null); but a base-metric comparison cell computed as
NaN inside `calculate_box_totals` never reaches emission as NaN — box
assembly fills it with 0 first, so it is emitted as 0. -/
theorem c8_amended_na_emission :
    (∀ v : PVal, emitBoxCell v = Disp.na
        ↔ (v = PVal.nan ∨ v = PVal.posInf ∨ v = PVal.negInf)) ∧
    (∀ v : PVal, chartClean v = PVal.nan
        ↔ (v = PVal.nan ∨ v = PVal.posInf ∨ v = PVal.negInf)) ∧
    (∀ (isBps : Bool) (raw : List PVal), PVal.nan ∉ baseBoxColumn isBps raw) := by
  refine ⟨?_, ?_, ?_⟩
  · intro v
    cases v <;> simp [emitBoxCell]
  · intro v
    cases v <;> simp [chartClean]
  · intro isBps raw h
    simp only [baseBoxColumn] at h
    rcases List.mem_map.mp h with ⟨x, _, hx⟩
    exact fillnaZero_ne_nan x hx

theorem validateAggfOne_ok_iff (c : VMetricCfg) :
    validateAggfOne c = Except.ok () ↔
      (c.hasFunction = true
        ∨ (c.hasAggf = true ∧ (c.hasColumn = true ∨ c.hasFilter = true)))
      ∧ (c.comparisonMethod = none ∨ c.comparisonMethod = some "bps") := by
  unfold validateAggfOne
  by_cases h1 : ¬c.hasFunction = true
      ∧ (¬c.hasAggf = true ∨ (¬c.hasColumn = true ∧ ¬c.hasFilter = true))
  · rw [if_pos h1]
    constructor
    · intro h; exact absurd h (by simp)
    · intro hp
      exact absurd hp.1 (by tauto)
  · rw [if_neg h1]
    have hnf : c.hasFunction = true
        ∨ (c.hasAggf = true ∧ (c.hasColumn = true ∨ c.hasFilter = true)) := by
      tauto
    rcases hcm : c.comparisonMethod with _ | s
    · simp [hcm, hnf]
    · by_cases hs : s = "bps"
      · subst hs
        simp [hcm, hnf]
      · simp [hcm, hs]

/-- C7 counterexample: a metric that explicitly sets
`metric_comparison_method: pct_change` (a value inside {bps, pct_change})
is rejected by the validator with an error citing its config line, even
though the claim says validation accepts it and raises only for values
outside that set. -/
theorem c7_counterexample :
    validateAggf [("PageViews",
      { hasFunction := false, hasAggf := true, hasColumn := true,
        hasFilter := false, comparisonMethod := some "pct_change", line := 4 })]
      = Except.error 4 := by
  rfl

/-- C7 (amended): configuration validation accepts a
`metric_comparison_method` value only when it is exactly `bps`; an absent
key is accepted (and classifies the metric as pct_change downstream), and
every other explicit value — including `pct_change` itself — raises a
configuration error. -/
theorem c7_amended_validator :
    (∀ ms : List (String × VMetricCfg),
      validateAggf ms = Except.ok () ↔
        ∀ m ∈ ms,
          (m.2.hasFunction = true
            ∨ (m.2.hasAggf = true ∧ (m.2.hasColumn = true ∨ m.2.hasFilter = true)))
          ∧ (m.2.comparisonMethod = none ∨ m.2.comparisonMethod = some "bps")) ∧
    (∀ c : VMetricCfg, bpsOrPercentileCollector c = true
        ↔ c.comparisonMethod = some "bps") := by
  constructor
  · intro ms
    induction ms with
    | nil => simp [validateAggf]
    | cons m rest ih =>
      rcases hone : validateAggfOne m.2 with e | u
      · simp only [validateAggf, hone]
        constructor
        · intro h; exact absurd h (by simp)
        · intro hp
          have := (validateAggfOne_ok_iff m.2).mpr (hp m (List.mem_cons_self _ _))
          rw [hone] at this
          exact absurd this (by simp)
      · cases u
        simp only [validateAggf, hone]
        rw [ih]
        constructor
        · intro h x hx
          rcases List.mem_cons.mp hx with rfl | hx2
          · exact (validateAggfOne_ok_iff x.2).mp hone
          · exact h x hx2
        · intro h x hx
          exact h x (List.mem_cons_of_mem _ hx)
  · intro c
    simp [bpsOrPercentileCollector]

/-- C6 counterexample: on the spec's circular-dependency scenario
`A = sum(B, C)`, `B = sum(A, D)` (references by name), the evaluation does
NOT raise a circular-dependency error — no such error class exists in the
code. -/
theorem c6_counterexample :
    isCircularDependency
      (computeFunctionalMetrics [] cyclicFnCfg twoMetricArts) = false := by
  simp [computeFunctionalMetrics, rfcOne, rfcList, collectGroups, runsByKind,
    lastRunOf, isMetricOperand, operandName, hasCol, twoMetricArts, cyclicFnCfg,
    getCol, onesCol, isCircularDependency]

/-- C6 (amended): a dependency cycle expressed through name references is
not detected as a cycle; evaluating `A = sum(B, C)` with `B = sum(A, D)`
halts at the first metric with a `KeyError` citing its config line
("Unknown metric found at line 3"), because the not-yet-computed column
`B` is absent from the artifacts. -/
theorem c6_amended_cycle_key_error :
    computeFunctionalMetrics [] cyclicFnCfg twoMetricArts
      = Except.error (WbrError.keyError 3) := by
  simp [computeFunctionalMetrics, rfcOne, rfcList, collectGroups, runsByKind,
    lastRunOf, isMetricOperand, operandName, hasCol, twoMetricArts, cyclicFnCfg,
    getCol, onesCol]

theorem cell_baseBoxColumn_cmp (isBps : Bool) (raw : List PVal)
    (j n d : ℕ) (hj : (j, n, d) ∈ yoyRowTriples) :
    cell (baseBoxColumn isBps raw) j
      = fillnaZero ((if isBps then bpsCmp else pctCmp)
          (cell (periodAggregatesCleaned raw) n)
          (cell (periodAggregatesCleaned raw) d)) := by
  fin_cases hj <;> rfl

/-- C1 (amended): for every base metric, each of the five YoY comparison
rows of `cyBoxTotals` equals `(cy - py) * 10000` (bps) or
`(cy / py - 1) * 100` (pct_change) of the corresponding CY/PY period-pair
aggregates, PROVIDED both aggregates are numeric and nonzero; a zero
aggregate is first replaced by null (`wbr.py:1191`) and the resulting null
comparison is emitted as 0 by box assembly. -/
theorem c1_amended_box_yoy_rows (isBps : Bool) (raw : List PVal)
    (j n d : ℕ) (hj : (j, n, d) ∈ yoyRowTriples)
    (a b : ℚ) (ha : cell raw n = PVal.num a) (ha0 : a ≠ 0)
    (hb : cell raw d = PVal.num b) (hb0 : b ≠ 0) :
    cell (baseBoxColumn isBps raw) j
      = if isBps then PVal.num ((a - b) * 10000)
        else PVal.num ((a / b - 1) * 100) := by
  have hn : n < raw.length := lt_length_of_cell_ne_nan raw n (by rw [ha]; simp)
  have hd : d < raw.length := lt_length_of_cell_ne_nan raw d (by rw [hb]; simp)
  have hgn : cell (periodAggregatesCleaned raw) n = PVal.num a := by
    rw [periodAggregatesCleaned, cell_map _ _ _ hn, ha, zeroToNan_num a ha0]
  have hgd : cell (periodAggregatesCleaned raw) d = PVal.num b := by
    rw [periodAggregatesCleaned, cell_map _ _ _ hd, hb, zeroToNan_num b hb0]
  rw [cell_baseBoxColumn_cmp isBps raw j n d hj, hgn, hgd]
  cases isBps with
  | false =>
    rw [if_neg (by simp), if_neg (by simp), pctCmp_num a b hb0, fillnaZero_num]
  | true =>
    rw [if_pos rfl, if_pos rfl, bpsCmp_num, fillnaZero_num]

/-- C1 witness: the spec's bps scenario — `ConvRate` with CY wk6 = 0.05
and PY wk6 = 0.03 yields a YOY-wk box row of 200 bps. -/
theorem c1_witness :
    cell (baseBoxColumn true
      [PVal.num (1/20), PVal.num (1/25), PVal.num (3/100), PVal.num 1,
       PVal.num 1, PVal.num 1, PVal.num 1, PVal.num 1, PVal.num 1, PVal.num 1]) 2
      = PVal.num 200 := by
  rw [c1_amended_box_yoy_rows true
    [PVal.num (1/20), PVal.num (1/25), PVal.num (3/100), PVal.num 1,
     PVal.num 1, PVal.num 1, PVal.num 1, PVal.num 1, PVal.num 1, PVal.num 1]
    2 0 2 (by decide) (1/20) (3/100) rfl (by norm_num) rfl (by norm_num)]
  rw [if_pos rfl]
  congr 1
  norm_num

/-- C1 counterexample: a bps metric with CY wk6 = 5 and PY wk6 = 0 yields
a YOY-wk box row of 0, not the `(cy - py) * 10000 = 50000` the claim
demands: the zero aggregate is replaced by null, the comparison becomes
NaN, and assembly fills it with 0. -/
theorem c1_counterexample :
    cell (baseBoxColumn true
      [PVal.num 5, PVal.num 1, PVal.num 0, PVal.num 1,
       PVal.num 1, PVal.num 1, PVal.num 1, PVal.num 1, PVal.num 1, PVal.num 1]) 2
      = PVal.num 0
    ∧ PVal.num 0 ≠ PVal.num ((5 - 0) * 10000) := by
  constructor
  · decide
  · simp only [ne_eq, PVal.num.injEq]
    norm_num

/-- C5 counterexample: the month of a `week_ending` on day 10 holds only
three daily rows (days 1–3), all non-null.  The claim (observations
compared against the number of days in `[first of month, week_ending]`,
3 ≠ 10) demands null; the code compares the non-null count against the
number of rows PRESENT in the whole month (3 = 3) and aggregates to 6. -/
theorem c5_counterexample :
    aggregateWeekEndingMonthCol
      [((1 : ℤ), PVal.num 1), ((2 : ℤ), PVal.num 2), ((3 : ℤ), PVal.num 3)]
      AggFn.sumLambda 1 31 = PVal.num 6
    ∧ aggregateWeekEndingMonthClaim
      [((1 : ℤ), PVal.num 1), ((2 : ℤ), PVal.num 2), ((3 : ℤ), PVal.num 3)]
      AggFn.sumLambda 1 10 = PVal.nan := by
  constructor
  · have e : aggregateWeekEndingMonthCol
        [((1 : ℤ), PVal.num 1), ((2 : ℤ), PVal.num 2), ((3 : ℤ), PVal.num 3)]
        AggFn.sumLambda 1 31
        = sumSkipnaFalse (([1, 2, 3] : List ℚ).map PVal.num) := rfl
    rw [e, sumSkipnaFalse_map_num]
    congr 1
    norm_num
  · rfl

/-- C5 (amended): the appended partial-month row assigns a sum-aggregated
metric null exactly when some daily row dated in
`[first of month, LAST day of month]` carries a null value for the metric
— the guard compares the non-null count against the number of rows
present, not against the number of days in `[first of month,
week_ending]`; otherwise the aggregation is applied to those rows. -/
theorem c5_amended_partial_month_guard (rows : List (ℤ × PVal))
    (firstOfMonth lastOfMonth : ℤ)
    (hfin : ∀ r ∈ rows, r.2 ≠ PVal.posInf ∧ r.2 ≠ PVal.negInf) :
    (aggregateWeekEndingMonthCol rows AggFn.sumLambda firstOfMonth lastOfMonth
        = PVal.nan)
      ↔ ∃ r ∈ rows, firstOfMonth ≤ r.1 ∧ r.1 ≤ lastOfMonth ∧ r.2 = PVal.nan := by
  have e : aggregateWeekEndingMonthCol rows AggFn.sumLambda firstOfMonth lastOfMonth
      = (if (rows.filter
              (fun r => decide (firstOfMonth ≤ r.1) && decide (r.1 ≤ lastOfMonth))).length
            ≠ countNonNan ((rows.filter
              (fun r => decide (firstOfMonth ≤ r.1) && decide (r.1 ≤ lastOfMonth))).map
                Prod.snd)
         then PVal.nan
         else sumSkipnaFalse ((rows.filter
              (fun r => decide (firstOfMonth ≤ r.1) && decide (r.1 ≤ lastOfMonth))).map
                Prod.snd)) := rfl
  rw [e]
  set m := rows.filter
    (fun r => decide (firstOfMonth ≤ r.1) && decide (r.1 ≤ lastOfMonth)) with hm
  have hmem : ∀ r, r ∈ m ↔ (r ∈ rows ∧ firstOfMonth ≤ r.1 ∧ r.1 ≤ lastOfMonth) := by
    intro r
    rw [hm, List.mem_filter]
    simp
  have hguard : (m.length ≠ countNonNan (m.map Prod.snd))
      ↔ PVal.nan ∈ m.map Prod.snd := by
    constructor
    · intro hne
      by_contra hno
      exact hne (((countNonNan_eq_length_iff _).mpr hno).trans
        (List.length_map _ _)).symm
    · intro hin heq
      exact ((countNonNan_eq_length_iff (m.map Prod.snd)).mp
        (heq.symm.trans (List.length_map _ _).symm)) hin
  by_cases hg : m.length ≠ countNonNan (m.map Prod.snd)
  · rw [if_pos hg]
    constructor
    · intro _
      rcases List.mem_map.mp (hguard.mp hg) with ⟨r, hrm, hrn⟩
      rcases (hmem r).mp hrm with ⟨hrr, h1, h2⟩
      exact ⟨r, hrr, h1, h2, hrn⟩
    · intro _
      rfl
  · rw [if_neg hg]
    have hno : PVal.nan ∉ m.map Prod.snd := fun hin => hg (hguard.mpr hin)
    have hall : ∀ v ∈ m.map Prod.snd, ∃ q, v = PVal.num q := by
      intro v hv
      rcases List.mem_map.mp hv with ⟨r, hrm, rfl⟩
      rcases (hmem r).mp hrm with ⟨hrr, _, _⟩
      rcases hfin r hrr with ⟨hp, hn⟩
      cases hval : r.2 with
      | nan => exact absurd (hval ▸ List.mem_map_of_mem Prod.snd hrm) hno
      | num q => exact ⟨q, rfl⟩
      | posInf => exact absurd hval hp
      | negInf => exact absurd hval hn
    rcases sumSkipnaFalse_all_num _ hall with ⟨q, hq⟩
    rw [hq]
    constructor
    · intro h
      exact absurd h (by simp)
    · intro hex
      rcases hex with ⟨r, hrr, h1, h2, hrn⟩
      have : r ∈ m := (hmem r).mpr ⟨hrr, h1, h2⟩
      exact absurd (hrn ▸ List.mem_map_of_mem Prod.snd this) hno

/-- C5 witness: a month containing a null observation makes the
partial-month aggregate null. -/
theorem c5_witness :
    aggregateWeekEndingMonthCol [((2 : ℤ), PVal.nan)] AggFn.sumLambda 1 31
      = PVal.nan :=
  (c5_amended_partial_month_guard [((2 : ℤ), PVal.nan)] 1 31 (by decide)).mpr
    ⟨((2 : ℤ), PVal.nan), by decide, by decide, by decide, rfl⟩

theorem cell_set5_at1 {box : List PVal} {v1 v2 v4 v6 v8 : PVal}
    (hbox : box.length = 9) :
    cell (((((box.set 1 v1).set 2 v2).set 4 v4).set 6 v6).set 8 v8) 1 = v1 := by
  rw [cell_set_ne _ _ _ _ (by decide), cell_set_ne _ _ _ _ (by decide),
    cell_set_ne _ _ _ _ (by decide), cell_set_ne _ _ _ _ (by decide),
    cell_set_self _ _ _ (by omega)]

theorem cell_set5_at2 {box : List PVal} {v1 v2 v4 v6 v8 : PVal}
    (hbox : box.length = 9) :
    cell (((((box.set 1 v1).set 2 v2).set 4 v4).set 6 v6).set 8 v8) 2 = v2 := by
  rw [cell_set_ne _ _ _ _ (by decide), cell_set_ne _ _ _ _ (by decide),
    cell_set_ne _ _ _ _ (by decide),
    cell_set_self _ _ _ (by simp only [List.length_set]; omega)]

theorem cell_set5_at4 {box : List PVal} {v1 v2 v4 v6 v8 : PVal}
    (hbox : box.length = 9) :
    cell (((((box.set 1 v1).set 2 v2).set 4 v4).set 6 v6).set 8 v8) 4 = v4 := by
  rw [cell_set_ne _ _ _ _ (by decide), cell_set_ne _ _ _ _ (by decide),
    cell_set_self _ _ _ (by simp only [List.length_set]; omega)]

theorem cell_set5_at6 {box : List PVal} {v1 v2 v4 v6 v8 : PVal}
    (hbox : box.length = 9) :
    cell (((((box.set 1 v1).set 2 v2).set 4 v4).set 6 v6).set 8 v8) 6 = v6 := by
  rw [cell_set_ne _ _ _ _ (by decide),
    cell_set_self _ _ _ (by simp only [List.length_set]; omega)]

theorem cell_set5_at8 {box : List PVal} {v1 v2 v4 v6 v8 : PVal}
    (hbox : box.length = 9) :
    cell (((((box.set 1 v1).set 2 v2).set 4 v4).set 6 v6).set 8 v8) 8 = v8 := by
  rw [cell_set_self _ _ _ (by simp only [List.length_set]; omega)]

theorem cell_denomVals_sum (f : Frame) (cols : List String) :
    cell (applyOperationAndReturnDenominatorValues Op.sum cols f) 0
      = zeroToNan (applySumOperations f cols 1)
    ∧ cell (applyOperationAndReturnDenominatorValues Op.sum cols f) 1
      = zeroToNan (applySumOperations f cols 2)
    ∧ cell (applyOperationAndReturnDenominatorValues Op.sum cols f) 2
      = zeroToNan (applySumOperations f cols 5)
    ∧ cell (applyOperationAndReturnDenominatorValues Op.sum cols f) 3
      = zeroToNan (applySumOperations f cols 7)
    ∧ cell (applyOperationAndReturnDenominatorValues Op.sum cols f) 4
      = zeroToNan (applySumOperations f cols 9) :=
  ⟨rfl, rfl, rfl, rfl, rfl⟩

theorem cell_denomVals_diff (f : Frame) (cols : List String) :
    cell (applyOperationAndReturnDenominatorValues Op.difference cols f) 0
      = zeroToNan ((cell (getCol f (cols.getD 0 "")) 1).sub
          (cell (getCol f (cols.getD 1 "")) 1))
    ∧ cell (applyOperationAndReturnDenominatorValues Op.difference cols f) 1
      = zeroToNan ((cell (getCol f (cols.getD 0 "")) 2).sub
          (cell (getCol f (cols.getD 1 "")) 2))
    ∧ cell (applyOperationAndReturnDenominatorValues Op.difference cols f) 2
      = zeroToNan ((cell (getCol f (cols.getD 0 "")) 5).sub
          (cell (getCol f (cols.getD 1 "")) 5))
    ∧ cell (applyOperationAndReturnDenominatorValues Op.difference cols f) 3
      = zeroToNan ((cell (getCol f (cols.getD 0 "")) 7).sub
          (cell (getCol f (cols.getD 1 "")) 7))
    ∧ cell (applyOperationAndReturnDenominatorValues Op.difference cols f) 4
      = zeroToNan ((cell (getCol f (cols.getD 0 "")) 9).sub
          (cell (getCol f (cols.getD 1 "")) 9)) :=
  ⟨rfl, rfl, rfl, rfl, rfl⟩

theorem getD_mem_of_two_le {cols : List String} (h : 2 ≤ cols.length) :
    cols.getD 0 "" ∈ cols ∧ cols.getD 1 "" ∈ cols := by
  rcases cols with _ | ⟨a, _ | ⟨b, t⟩⟩
  · simp at h
  · simp at h
  · exact ⟨List.mem_cons_self _ _,
      List.mem_cons_of_mem _ (List.mem_cons_self _ _)⟩

theorem cell_frameMap_setCol (ps : Frame) (name : String) (w : List PVal)
    (c : String) (i : ℕ) (hc : c ≠ name) (hi : i < (getCol ps c).length) :
    cell (getCol (frameMap fillnaZero (setCol ps name w)) c) i
      = fillnaZero (cell (getCol ps c) i) := by
  rw [getCol_frameMap, getCol_setCol_ne _ _ _ _ hc, cell_map _ _ _ hi]

theorem applySumOperations_frameMap (ps : Frame) (name : String)
    (w : List PVal) (cols : List String) (i : ℕ)
    (hname : ∀ c ∈ cols, c ≠ name)
    (hlen : ∀ c ∈ cols, (getCol ps c).length = 10) (hi : i < 10) :
    applySumOperations (frameMap fillnaZero (setCol ps name w)) cols i
      = filledOpValue Op.sum ps cols i := by
  show cols.foldl
      (fun acc c => acc.add
        (cell (getCol (frameMap fillnaZero (setCol ps name w)) c) i)) (PVal.num 0)
    = cols.foldl
      (fun acc c => acc.add (fillnaZero (cell (getCol ps c) i))) (PVal.num 0)
  exact foldl_add_cell_congr cols _ _
    (fun c hc => cell_frameMap_setCol ps name w c i (hname c hc)
      (by rw [hlen c hc]; exact hi)) _

theorem boxTotalSum_closure_rows (isBps : Bool) (ps : Frame) (name : String)
    (cols : List String) (box : List PVal)
    (hname : ∀ c ∈ cols, c ≠ name)
    (hlen : ∀ c ∈ cols, (getCol ps c).length = 10)
    (hbox : box.length = 9)
    (j n d : ℕ) (hj : (j, n, d) ∈ yoyRowTriples) :
    cell (boxTotalSumCalculation isBps ps name cols box).2 j
      = calculateYoyBoxTotal isBps (filledOpValue Op.sum ps cols n)
          (zeroToNan (filledOpValue Op.sum ps cols d)) := by
  simp only [boxTotalSumCalculation]
  fin_cases hj
  · rw [cell_set5_at1 hbox, (cell_denomVals_sum _ cols).1,
      applySumOperations_frameMap ps name _ cols 0 hname hlen (by omega),
      applySumOperations_frameMap ps name _ cols 1 hname hlen (by omega)]
  · rw [cell_set5_at2 hbox, (cell_denomVals_sum _ cols).2.1,
      applySumOperations_frameMap ps name _ cols 0 hname hlen (by omega),
      applySumOperations_frameMap ps name _ cols 2 hname hlen (by omega)]
  · rw [cell_set5_at4 hbox, (cell_denomVals_sum _ cols).2.2.1,
      applySumOperations_frameMap ps name _ cols 4 hname hlen (by omega),
      applySumOperations_frameMap ps name _ cols 5 hname hlen (by omega)]
  · rw [cell_set5_at6 hbox, (cell_denomVals_sum _ cols).2.2.2.1,
      applySumOperations_frameMap ps name _ cols 6 hname hlen (by omega),
      applySumOperations_frameMap ps name _ cols 7 hname hlen (by omega)]
  · rw [cell_set5_at8 hbox, (cell_denomVals_sum _ cols).2.2.2.2,
      applySumOperations_frameMap ps name _ cols 8 hname hlen (by omega),
      applySumOperations_frameMap ps name _ cols 9 hname hlen (by omega)]

theorem diff_num_frameMap (ps : Frame) (name : String) (w : List PVal)
    (cols : List String) (i : ℕ)
    (hname : ∀ c ∈ cols, c ≠ name)
    (hlen : ∀ c ∈ cols, (getCol ps c).length = 10)
    (hcols : 2 ≤ cols.length) (hi : i < 10) :
    (cell (getCol (frameMap fillnaZero (setCol ps name w)) (cols.getD 0 "")) i).sub
      (cell (getCol (frameMap fillnaZero (setCol ps name w)) (cols.getD 1 "")) i)
      = filledOpValue Op.difference ps cols i := by
  obtain ⟨h0, h1⟩ := getD_mem_of_two_le hcols
  rw [cell_frameMap_setCol ps name w _ i (hname _ h0) (by rw [hlen _ h0]; exact hi),
    cell_frameMap_setCol ps name w _ i (hname _ h1) (by rw [hlen _ h1]; exact hi)]
  rfl

theorem boxTotalDiff_closure_rows (isBps : Bool) (ps : Frame) (name : String)
    (cols : List String) (box : List PVal)
    (hname : ∀ c ∈ cols, c ≠ name)
    (hlen : ∀ c ∈ cols, (getCol ps c).length = 10)
    (hcols : 2 ≤ cols.length)
    (hbox : box.length = 9)
    (j n d : ℕ) (hj : (j, n, d) ∈ yoyRowTriples) :
    cell (boxTotalDiffCalculation isBps ps name cols box).2 j
      = calculateYoyBoxTotal isBps (filledOpValue Op.difference ps cols n)
          (zeroToNan (filledOpValue Op.difference ps cols d)) := by
  simp only [boxTotalDiffCalculation]
  fin_cases hj
  · rw [cell_set5_at1 hbox, (cell_denomVals_diff _ cols).1,
      diff_num_frameMap ps name _ cols 0 hname hlen hcols (by omega),
      diff_num_frameMap ps name _ cols 1 hname hlen hcols (by omega)]
  · rw [cell_set5_at2 hbox, (cell_denomVals_diff _ cols).2.1,
      diff_num_frameMap ps name _ cols 0 hname hlen hcols (by omega),
      diff_num_frameMap ps name _ cols 2 hname hlen hcols (by omega)]
  · rw [cell_set5_at4 hbox, (cell_denomVals_diff _ cols).2.2.1,
      diff_num_frameMap ps name _ cols 4 hname hlen hcols (by omega),
      diff_num_frameMap ps name _ cols 5 hname hlen hcols (by omega)]
  · rw [cell_set5_at6 hbox, (cell_denomVals_diff _ cols).2.2.2.1,
      diff_num_frameMap ps name _ cols 6 hname hlen hcols (by omega),
      diff_num_frameMap ps name _ cols 7 hname hlen hcols (by omega)]
  · rw [cell_set5_at8 hbox, (cell_denomVals_diff _ cols).2.2.2.2,
      diff_num_frameMap ps name _ cols 8 hname hlen hcols (by omega),
      diff_num_frameMap ps name _ cols 9 hname hlen hcols (by omega)]

theorem raw_cell_setCol (ps : Frame) (name : String) (w : List PVal)
    (c : String) (i : ℕ) (hc : c ≠ name) :
    cell (getCol (setCol ps name w) c) i = cell (getCol ps c) i := by
  rw [getCol_setCol_ne _ _ _ _ hc]

theorem boxTotalDiv_closure_rows (isBps : Bool) (ps : Frame) (name : String)
    (cols : List String) (box : List PVal)
    (hname : ∀ c ∈ cols, c ≠ name)
    (hcols : 2 ≤ cols.length)
    (hbox : box.length = 9)
    (j n d : ℕ) (hj : (j, n, d) ∈ yoyRowTriples) :
    cell (boxTotalDivCalculation isBps ps name cols box).2 j
      = calculateYoyBoxTotal isBps (rawOpValue Op.divide ps cols n)
          (rawOpValue Op.divide ps cols d) := by
  obtain ⟨h0, h1⟩ := getD_mem_of_two_le hcols
  have hr : ∀ (w : List PVal) (i : ℕ),
      (cell (getCol (setCol ps name w) (cols.getD 0 "")) i).div
        (cell (getCol (setCol ps name w) (cols.getD 1 "")) i)
        = rawOpValue Op.divide ps cols i := by
    intro w i
    rw [raw_cell_setCol ps name w _ i (hname _ h0),
      raw_cell_setCol ps name w _ i (hname _ h1)]
    rfl
  simp only [boxTotalDivCalculation]
  fin_cases hj
  · rw [cell_set5_at1 hbox, hr, hr]
  · rw [cell_set5_at2 hbox, hr, hr]
  · rw [cell_set5_at4 hbox, hr, hr]
  · rw [cell_set5_at6 hbox, hr, hr]
  · rw [cell_set5_at8 hbox, hr, hr]

theorem boxTotalProduct_closure_rows (isBps : Bool) (ps : Frame) (name : String)
    (cols : List String) (box : List PVal)
    (hname : ∀ c ∈ cols, c ≠ name)
    (hcols : 2 ≤ cols.length)
    (hbox : box.length = 9)
    (j n d : ℕ) (hj : (j, n, d) ∈ yoyRowTriples) :
    cell (boxTotalProductCalculation isBps ps name cols box).2 j
      = calculateYoyBoxTotal isBps (rawOpValue Op.product ps cols n)
          (rawOpValue Op.product ps cols d) := by
  obtain ⟨h0, h1⟩ := getD_mem_of_two_le hcols
  have hr : ∀ (w : List PVal) (i : ℕ),
      (cell (getCol (setCol ps name w) (cols.getD 0 "")) i).mul
        (cell (getCol (setCol ps name w) (cols.getD 1 "")) i)
        = rawOpValue Op.product ps cols i := by
    intro w i
    rw [raw_cell_setCol ps name w _ i (hname _ h0),
      raw_cell_setCol ps name w _ i (hname _ h1)]
    rfl
  simp only [boxTotalProductCalculation]
  fin_cases hj
  · rw [cell_set5_at1 hbox, hr, hr]
  · rw [cell_set5_at2 hbox, hr, hr]
  · rw [cell_set5_at4 hbox, hr, hr]
  · rw [cell_set5_at6 hbox, hr, hr]
  · rw [cell_set5_at8 hbox, hr, hr]

/-- C3 (confirmed): in the box-total YoY closure for function metrics, the
`sum` and `difference` paths operate on the period summary with null
replaced by zero and protect the baseline (PY-side) denominator by turning
an exact zero into null (so the comparison surfaces as N/A); the `divide`
and `product` paths apply their operation to the raw period-summary cells
with neither replacement. -/
theorem c3_closure_null_handling (isBps : Bool) (ps : Frame) (name : String)
    (cols : List String) (box : List PVal)
    (hname : ∀ c ∈ cols, c ≠ name)
    (hlen : ∀ c ∈ cols, (getCol ps c).length = 10)
    (hcols : 2 ≤ cols.length)
    (hbox : box.length = 9)
    (j n d : ℕ) (hj : (j, n, d) ∈ yoyRowTriples) :
    cell (boxTotalSumCalculation isBps ps name cols box).2 j
      = calculateYoyBoxTotal isBps (filledOpValue Op.sum ps cols n)
          (zeroToNan (filledOpValue Op.sum ps cols d))
    ∧ cell (boxTotalDiffCalculation isBps ps name cols box).2 j
      = calculateYoyBoxTotal isBps (filledOpValue Op.difference ps cols n)
          (zeroToNan (filledOpValue Op.difference ps cols d))
    ∧ cell (boxTotalDivCalculation isBps ps name cols box).2 j
      = calculateYoyBoxTotal isBps (rawOpValue Op.divide ps cols n)
          (rawOpValue Op.divide ps cols d)
    ∧ cell (boxTotalProductCalculation isBps ps name cols box).2 j
      = calculateYoyBoxTotal isBps (rawOpValue Op.product ps cols n)
          (rawOpValue Op.product ps cols d) :=
  ⟨boxTotalSum_closure_rows isBps ps name cols box hname hlen hbox j n d hj,
   boxTotalDiff_closure_rows isBps ps name cols box hname hlen hcols hbox j n d hj,
   boxTotalDiv_closure_rows isBps ps name cols box hname hcols hbox j n d hj,
   boxTotalProduct_closure_rows isBps ps name cols box hname hcols hbox j n d hj⟩

/-- C3 witness: the closure at the WOW row of a concrete period summary. -/
theorem c3_witness :
    cell (boxTotalSumCalculation false threeMetricArts.periodSummary "R"
        ["A", "B"] (onesCol 9)).2 1
      = calculateYoyBoxTotal false
          (filledOpValue Op.sum threeMetricArts.periodSummary ["A", "B"] 0)
          (zeroToNan (filledOpValue Op.sum threeMetricArts.periodSummary
            ["A", "B"] 1)) :=
  (c3_closure_null_handling false threeMetricArts.periodSummary "R" ["A", "B"]
    (onesCol 9) (by decide) (by decide) (by decide) (by decide)
    1 0 1 (by decide)).1

theorem cell_set5_other {box : List PVal} {v1 v2 v4 v6 v8 : PVal} (j : ℕ)
    (hj : j ≠ 1 ∧ j ≠ 2 ∧ j ≠ 4 ∧ j ≠ 6 ∧ j ≠ 8) :
    cell (((((box.set 1 v1).set 2 v2).set 4 v4).set 6 v6).set 8 v8) j
      = cell box j := by
  rw [cell_set_ne _ _ _ _ (Ne.symm hj.2.2.2.2),
    cell_set_ne _ _ _ _ (Ne.symm hj.2.2.2.1),
    cell_set_ne _ _ _ _ (Ne.symm hj.2.2.1),
    cell_set_ne _ _ _ _ (Ne.symm hj.2.1),
    cell_set_ne _ _ _ _ (Ne.symm hj.1)]

theorem cell_boxTotalCalc_abs (op : Op) (isBps : Bool) (ps : Frame)
    (name : String) (cols : List String) (box : List PVal) (j : ℕ)
    (hj : j ≠ 1 ∧ j ≠ 2 ∧ j ≠ 4 ∧ j ≠ 6 ∧ j ≠ 8) :
    cell (boxTotalCalc op isBps ps name cols box).2 j = cell box j := by
  cases op <;>
    simp only [boxTotalCalc, boxTotalSumCalculation, boxTotalDiffCalculation,
      boxTotalDivCalculation, boxTotalProductCalculation] <;>
    exact cell_set5_other j hj

/-- C2 (amended): evaluating a function metric writes a column equal to
the operation applied row-wise to the operand values into the CY/PY weekly
and CY/PY monthly artifacts and into `pyBoxTotals` (all rows), and into
`cyBoxTotals` only at the four absolute rows 0, 3, 5, 7 — rows 1, 2, 4, 6,
8 are overwritten by the YoY closure.  In `periodSummary` the row-wise
operation is applied for `difference`/`product`/`divide`, while for `sum`
the written column is the row-wise sum of ALL period-summary columns, not
just the operands.  On numeric operand values the row operation is the
N-ary rational sum / binary difference / product / quotient. -/
theorem c2_amended_function_columns (op : Op) (isBps : Bool)
    (cols pyCols : List String) (name : String) (a res : Artifacts)
    (hres : res = applyFunctionMetric op isBps cols pyCols name a) :
    (∀ i, i < (getCol a.cyWeekly (cols.getD 0 "")).length →
        cell (getCol res.cyWeekly name) i
          = applyOpRow op (cols.map (fun c => cell (getCol a.cyWeekly c) i)))
    ∧ (∀ i, i < (getCol a.pyWeekly (pyCols.getD 0 "")).length →
        cell (getCol res.pyWeekly ("PY__" ++ name)) i
          = applyOpRow op (pyCols.map (fun c => cell (getCol a.pyWeekly c) i)))
    ∧ (∀ i, i < (getCol a.cyMonthly (cols.getD 0 "")).length →
        cell (getCol res.cyMonthly name) i
          = applyOpRow op (cols.map (fun c => cell (getCol a.cyMonthly c) i)))
    ∧ (∀ i, i < (getCol a.pyMonthly (pyCols.getD 0 "")).length →
        cell (getCol res.pyMonthly ("PY__" ++ name)) i
          = applyOpRow op (pyCols.map (fun c => cell (getCol a.pyMonthly c) i)))
    ∧ (∀ i, i < (getCol a.pyBox (cols.getD 0 "")).length →
        cell (getCol res.pyBox name) i
          = applyOpRow op (cols.map (fun c => cell (getCol a.pyBox c) i)))
    ∧ (∀ j, j < (getCol a.boxTotals (cols.getD 0 "")).length →
        (j = 0 ∨ j = 3 ∨ j = 5 ∨ j = 7) →
        cell (getCol res.boxTotals name) j
          = applyOpRow op (cols.map (fun c => cell (getCol a.boxTotals c) j)))
    ∧ (op ≠ Op.sum → ∀ i, i < frameRows a.periodSummary →
        cell (getCol res.periodSummary name) i
          = applyOpRow op [cell (getCol a.periodSummary (cols.getD 0 "")) i,
              cell (getCol a.periodSummary (cols.getD 1 "")) i])
    ∧ (op = Op.sum → ∀ i, i < frameRows a.periodSummary →
        cell (getCol res.periodSummary name) i
          = rowSumSkipna (a.periodSummary.map (fun p => cell p.2 i)))
    ∧ (∀ qs : List ℚ, applyOpRow Op.sum (qs.map PVal.num) = PVal.num qs.sum)
    ∧ (∀ x y : ℚ, applyOpRow Op.difference [PVal.num x, PVal.num y]
        = PVal.num (x - y))
    ∧ (∀ x y : ℚ, applyOpRow Op.product [PVal.num x, PVal.num y]
        = PVal.num (x * y))
    ∧ (∀ x y : ℚ, y ≠ 0 → applyOpRow Op.divide [PVal.num x, PVal.num y]
        = PVal.num (x / y)) := by
  subst hres
  simp only [applyFunctionMetric]
  refine ⟨?_, ?_, ?_, ?_, ?_, ?_, ?_, ?_, ?_, ?_, ?_, ?_⟩
  · intro i hi
    rw [getCol_setCol_self]
    exact cell_rangeMap _ _ _ hi
  · intro i hi
    rw [getCol_setCol_self]
    exact cell_rangeMap _ _ _ hi
  · intro i hi
    rw [getCol_setCol_self]
    exact cell_rangeMap _ _ _ hi
  · intro i hi
    rw [getCol_setCol_self]
    exact cell_rangeMap _ _ _ hi
  · intro i hi
    rw [getCol_setCol_self]
    exact cell_rangeMap _ _ _ hi
  · intro j hjlen hj
    rw [getCol_setCol_self]
    have hne : j ≠ 1 ∧ j ≠ 2 ∧ j ≠ 4 ∧ j ≠ 6 ∧ j ≠ 8 := by
      rcases hj with rfl | rfl | rfl | rfl <;> refine ⟨?_, ?_, ?_, ?_, ?_⟩ <;> decide
    rw [cell_boxTotalCalc_abs op isBps _ name cols _ j hne]
    exact cell_rangeMap _ _ _ hjlen
  · intro hop i hi
    cases op with
    | sum => exact absurd rfl hop
    | difference =>
      simp only [boxTotalCalc, boxTotalDiffCalculation]
      rw [getCol_setCol_self, cell_rangeMap _ _ _ hi]
      rfl
    | product =>
      simp only [boxTotalCalc, boxTotalProductCalculation]
      rw [getCol_setCol_self, cell_rangeMap _ _ _ hi]
      rfl
    | divide =>
      simp only [boxTotalCalc, boxTotalDivCalculation]
      rw [getCol_setCol_self, cell_rangeMap _ _ _ hi]
      rfl
  · intro hop i hi
    subst hop
    simp only [boxTotalCalc, boxTotalSumCalculation]
    rw [getCol_setCol_self, cell_rangeMap _ _ _ hi]
  · intro qs
    show rowSumSkipna (qs.map PVal.num) = PVal.num qs.sum
    exact rowSumSkipna_map_num qs
  · intro x y
    show PVal.num (x + -y) = PVal.num (x - y)
    congr 1
    ring
  · intro x y
    rfl
  · intro x y hy
    exact pval_div_num x y hy

/-- C2 counterexample: for `S = sum(A, B)` over artifacts whose period
summary also holds a third metric `Cx`, the period-summary column written
for `S` at row 0 is 1 + 2 + 4 = 7 — the row-sum of ALL columns — while
the sum of the row's operand values is 1 + 2 = 3. -/
theorem c2_counterexample :
    cell (getCol (applyFunctionMetric Op.sum false ["A", "B"] ["PY__A", "PY__B"]
        "S" threeMetricArts).periodSummary "S") 0 = PVal.num 7
    ∧ applyOpRow Op.sum
        [cell (getCol threeMetricArts.periodSummary "A") 0,
         cell (getCol threeMetricArts.periodSummary "B") 0] = PVal.num 3 := by
  constructor
  · have e1 : (applyFunctionMetric Op.sum false ["A", "B"] ["PY__A", "PY__B"]
          "S" threeMetricArts).periodSummary
        = setCol threeMetricArts.periodSummary "S"
            ((List.range (frameRows threeMetricArts.periodSummary)).map
              (fun i => rowSumSkipna
                (threeMetricArts.periodSummary.map (fun p => cell p.2 i)))) := rfl
    rw [e1, getCol_setCol_self, cell_rangeMap _ _ _ (by decide)]
    have e2 : threeMetricArts.periodSummary.map (fun p => cell p.2 0)
        = ([1, 2, 4] : List ℚ).map PVal.num := rfl
    rw [e2, rowSumSkipna_map_num]
    congr 1
    norm_num
  · have e3 : [cell (getCol threeMetricArts.periodSummary "A") 0,
        cell (getCol threeMetricArts.periodSummary "B") 0]
        = ([1, 2] : List ℚ).map PVal.num := rfl
    show rowSumSkipna _ = PVal.num 3
    rw [e3, rowSumSkipna_map_num]
    congr 1
    norm_num

/-- C2 witness: the CY weekly column of a difference metric at row 0. -/
theorem c2_witness :
    cell (getCol (applyFunctionMetric Op.difference false ["A", "B"]
        ["PY__A", "PY__B"] "P" threeMetricArts).cyWeekly "P") 0
      = applyOpRow Op.difference
          (["A", "B"].map (fun c => cell (getCol threeMetricArts.cyWeekly c) 0)) :=
  (c2_amended_function_columns Op.difference false ["A", "B"] ["PY__A", "PY__B"]
      "P" threeMetricArts _ rfl).1 0 (by decide)

/-- C4 (confirmed): for a sum-aggregated metric (whose `build_agg` entry
is the skipna-False sum lambda), every row of the CY trailing-six-weeks
artifact whose 7-day interval contains a daily row with a null value for
the metric carries a null aggregate. -/
theorem c4_weekly_sum_null (rows : List (ℤ × PVal)) (weekEnding : ℤ)
    (agg : AggFn) (hAgg : buildAgg false "sum" = some agg)
    (row : ℤ × PVal)
    (hmem : row ∈ trailingSixWeeksCol rows weekEnding agg)
    (hnull : ∃ r ∈ rows, row.1 - 7 < r.1 ∧ r.1 ≤ row.1 ∧ r.2 = PVal.nan) :
    row.2 = PVal.nan := by
  have hA : agg = AggFn.sumLambda := by
    have h := hAgg
    simp [buildAgg] at h
    exact h.symm
  subst hA
  rcases hnull with ⟨r, hr_rows, hgt, hle, hrnan⟩
  unfold trailingSixWeeksCol at hmem
  split at hmem
  · rcases List.mem_map.mp hmem with ⟨i, _, hrow⟩
    rw [← hrow]
  · rename_i f fs heq
    simp only [] at hmem
    rcases List.mem_append.mp hmem with hp | hc
    · rcases List.mem_map.mp hp with ⟨i, _, hrow⟩
      rw [← hrow]
    · rcases List.mem_map.mp hc with ⟨k, hkmem, hrow⟩
      have hk : k < maxBucket weekEnding f fs - minBucket weekEnding f fs + 1 :=
        List.mem_range.mp hkmem
      set b := minBucket weekEnding f fs + k with hb
      have hwin : ∀ x ∈ f :: fs, weekEnding - 41 ≤ x.1 ∧ x.1 ≤ weekEnding := by
        intro x hx
        rw [← heq] at hx
        have hx2 := (List.mem_filter.mp hx).2
        simp only [Bool.and_eq_true, decide_eq_true_eq] at hx2
        exact hx2
      have hmin : minBucket weekEnding f fs ≤ bucketIdx weekEnding f.1 :=
        foldl_nat_min_le _ _
      have hmaxge : bucketIdx weekEnding f.1 ≤ maxBucket weekEnding f fs :=
        le_foldl_nat_max _ _
      have hmax5 : maxBucket weekEnding f fs ≤ 5 := by
        apply foldl_nat_max_le
        · exact Nat.sub_le _ _
        · intro x hx
          rcases List.mem_map.mp hx with ⟨y, _, hy⟩
          rw [← hy]
          exact Nat.sub_le _ _
      have hb5 : b ≤ 5 := by omega
      have hdate : row.1 = weekEnding - 7 * (5 - (b : ℤ)) := by rw [← hrow]
      have hval : row.2 = bucketAgg weekEnding (f :: fs) AggFn.sumLambda b := by
        rw [← hrow]
      rw [hdate] at hgt hle
      have hbz : (b : ℤ) ≤ 5 := by exact_mod_cast hb5
      have hrwin : weekEnding - 41 ≤ r.1 ∧ r.1 ≤ weekEnding := by
        constructor <;> omega
      have hrfil : r ∈ f :: fs := by
        rw [← heq]
        exact List.mem_filter.mpr ⟨hr_rows, by
          simp only [Bool.and_eq_true, decide_eq_true_eq]
          exact hrwin⟩
      have hrb : bucketIdx weekEnding r.1 = b := by
        unfold bucketIdx
        omega
      have hnm : PVal.nan ∈ ((f :: fs).filter
          (fun x => bucketIdx weekEnding x.1 = b)).map Prod.snd := by
        rw [← hrnan]
        exact List.mem_map_of_mem Prod.snd
          (List.mem_filter.mpr ⟨hrfil, by simp [hrb]⟩)
      rw [hval]
      show sumSkipnaFalse (((f :: fs).filter
          (fun x => bucketIdx weekEnding x.1 = b)).map Prod.snd) = PVal.nan
      exact sumSkipnaFalse_of_mem_nan _ hnm

/-- C4 witness: a week with a null day in a concrete data set. -/
theorem c4_witness :
    ((100 : ℤ), PVal.nan) ∈ trailingSixWeeksCol [((95 : ℤ), PVal.nan)] 100
        AggFn.sumLambda
    ∧ ((100 : ℤ), PVal.nan).2 = PVal.nan :=
  ⟨by decide,
   c4_weekly_sum_null [((95 : ℤ), PVal.nan)] 100 AggFn.sumLambda rfl
     ((100 : ℤ), PVal.nan) (by decide)
     ⟨((95 : ℤ), PVal.nan), by decide, by decide, by decide, rfl⟩⟩

end WBR
